import Mathlib

/-! Stack.h: a singly linked LIFO stack.

Shallow embedding of `src/Stack.h`.

* A chain of `Node`s owned through `std::unique_ptr` is a `List T`: the head of
  the list is the node `_top` points to, `[]` is the null pointer, and the tail
  of a list is the chain owned by `next`.  Ownership is exclusive, so no two
  chains share a node and a list is a complete description of a chain.
* `_size` is a `std::size_t`; it is a `Nat` and every `++`/`--` is taken
  modulo `2 ^ 64`.
* An operation that can throw returns a `Res`, which carries the state the
  object is left in when the exception leaves the operation.
* Objects live in a `Store`, addressed by a `Nat`; the tests `this == &other`
  of the two assignment operators compare addresses.
* For the question whether a copy shares nodes with its source, the nodes
  themselves get addresses in a second embedding, `Heap`.
-/

namespace StackH

/-- Number of values of `std::size_t` (64-bit target). -/
def SIZE_MOD : Nat := 2 ^ 64

/-- Exceptions that leave an operation: `std::out_of_range` (lines 119, 131), or
whatever the copy of an element or the allocation of a node throws. -/
inductive Exn where
  | out_of_range
  | copy_failure
  deriving DecidableEq, Repr

/-- Outcome of an operation on a state `σ` with result type `α`. -/
inductive Res (α σ : Type) where
  /-- normal return, with the returned value and the state afterwards -/
  | ret (val : α) (st : σ)
  /-- an exception reaches the caller; `st` is the state at that point -/
  | throw (e : Exn) (st : σ)
  /-- a null `unique_ptr` was dereferenced with `->` (undefined behaviour) -/
  | nullDeref
  deriving DecidableEq, Repr

/-- The operation returned normally. -/
def Res.returns {α σ : Type} : Res α σ → Bool
  | .ret _ _ => true
  | _ => false

/-- The operation signalled the exception `e`. -/
def Res.throws {α σ : Type} (e : Exn) : Res α σ → Bool
  | .throw e1 _ => decide (e1 = e)
  | _ => false

/-- Data members of `Stack<Type>` (lines 61 to 63). -/
structure Stack (T : Type) where
  /-- `std::size_t _size` -/
  _size : Nat
  /-- `std::unique_ptr<Node> _top`: the data of the chain, top first -/
  _top : List T
  deriving DecidableEq, Repr

namespace Stack

variable {T : Type}

/-- Members after default-initialisation: `_top` is the null pointer, `_size`
(line 62, no initializer) is not written and holds `indet`. -/
def defaultInit (indet : Nat) : Stack T := ⟨indet, []⟩

/-- `Stack()` (line 14) under value-initialisation, as in `Stack<T>()`,
`Stack<T>{}` and the delegating `: Stack()` of lines 90 and 96: the
constructor is defaulted on its first declaration, so the object is
zero-filled first. -/
def valueInit : Stack T := defaultInit 0

/-- `push` (lines 103 to 107 and 110 to 114): a new node in front of the old
chain, then `++_size`.  The allocation is taken to succeed. -/
def push (s : Stack T) (data : T) : Stack T :=
  { _top := data :: s._top, _size := (s._size + 1) % SIZE_MOD }

/-- `peek` (lines 117 to 120); a `const` member, the state is passed through. -/
def peek (s : Stack T) : Res T (Stack T) :=
  match s._top with
  | d :: _ => .ret d s
  | [] => .throw .out_of_range s

/-- `size` (lines 123 to 126). -/
def size (s : Stack T) : Nat := s._size

/-- `pop` (lines 129 to 138). -/
def pop (s : Stack T) : Res T (Stack T) :=
  match s._top with
  | [] => .throw .out_of_range s
  | data :: next =>
    .ret data { _top := next, _size := (s._size + SIZE_MOD - 1) % SIZE_MOD }

/-- `isEmpty` (lines 141 to 144): `!_size`. -/
def isEmpty (s : Stack T) : Bool := s._size == 0

/-- `operator bool` (lines 157 to 160). -/
def toBool (s : Stack T) : Bool := s._size != 0

/-- `Stack(std::initializer_list<Type>)` (lines 96 to 100). -/
def ctorList (list : List T) : Stack T :=
  list.foldl push valueInit

/-- The state of the loop of lines 187 to 196 in `operator=(const Stack&)`.
`above ++ cur :: next` is the chain of `this`; `thcr` points to the node
holding `cur`. -/
structure Cursor (T : Type) where
  /-- data of the nodes from `_top` down to the one before `thcr` -/
  above : List T
  /-- `thcr->data` -/
  cur : T
  /-- the chain owned by `thcr->next` -/
  next : List T
  /-- the flag `empty` -/
  empty : Bool
  deriving DecidableEq, Repr

/-- The chain of `this` as the cursor sees it. -/
def Cursor.chain (c : Cursor T) : List T := c.above ++ c.cur :: c.next

/-- One pass through the body of the loop (lines 189 to 194) with the source node
`otcr` holding `d`: either a new node `Node(nullptr, d)` is linked as
`thcr->next`, or the data of the existing `thcr->next` is overwritten; then
`thcr` moves to `thcr->next`. -/
def Cursor.step (c : Cursor T) (d : T) : Cursor T :=
  if c.empty || c.next.isEmpty then
    { above := c.above ++ [c.cur], cur := d, next := [], empty := true }
  else
    { above := c.above ++ [c.cur], cur := d, next := c.next.tail, empty := false }

/-- The loop of lines 187 to 196 followed by line 198.  `otcr` is the rest of
the source chain and `i` the position in the source of its first node.
`failAt = some k` makes the copy of the source element at position `k` (the
`make_unique` or the element assignment) throw; a `make_unique` that throws
has linked nothing, and an element whose assignment throws is taken to keep
the value it had.  The result is the chain of `this` together with whether the
loop ran to the end. -/
def copyLoop (failAt : Option Nat) : Nat → Cursor T → List T → Bool × List T
  | _, c, [] => (true, c.above ++ [c.cur])
  | i, c, d :: otcr =>
    if failAt = some i then (false, c.chain)
    else copyLoop failAt (i + 1) (c.step d) otcr

/-- The body of `operator=(const Stack&)` after the test of line 177 (lines
179 to 201), for `this` and `other` different objects. -/
def copyBody (failAt : Option Nat) (this other : Stack T) : Res Unit (Stack T) :=
  match other._top with
  | [] => .nullDeref
  | d :: otcr =>
    if failAt = some 0 then .throw .copy_failure this
    else
      let c : Cursor T :=
        match this._top with
        | [] => { above := [], cur := d, next := [], empty := true }
        | _ :: next => { above := [], cur := d, next := next, empty := false }
      match copyLoop failAt 1 c otcr with
      | (true, chain) => .ret () { _top := chain, _size := other._size }
      | (false, chain) => .throw .copy_failure { this with _top := chain }

/-- `Stack(const Stack&)` (lines 90 to 93): the object under construction is
value-initialised by `: Stack()` and is not `other`. -/
def ctorCopy (failAt : Option Nat) (other : Stack T) : Res Unit (Stack T) :=
  copyBody failAt valueInit other

/-- Run `pop` `n` times, collecting the returned values in the order of the
calls; the first call that does not return ends the run. -/
def popN : Nat → Stack T → Res (List T) (Stack T)
  | 0, s => .ret [] s
  | n + 1, s =>
    match pop s with
    | .ret v s1 =>
      match popN n s1 with
      | .ret vs s2 => .ret (v :: vs) s2
      | .throw e s2 => .throw e s2
      | .nullDeref => .nullDeref
    | .throw e s1 => .throw e s1
    | .nullDeref => .nullDeref

/-- The invariant of the data model: `_size` is the length of the chain, and
that length is a value of `std::size_t`. -/
def Inv (s : Stack T) : Prop :=
  s._size = s._top.length ∧ s._top.length < SIZE_MOD

instance (s : Stack T) : Decidable (Inv s) :=
  inferInstanceAs (Decidable (s._size = s._top.length ∧ s._top.length < SIZE_MOD))

/-- The cursor when the loop is entered (lines 179 to 185): the first element
of the source, `d`, has gone into a new node if `_top` was null (line 181,
flag `true`) and into the existing top node otherwise (line 182, flag
`false`); `thcr` is `_top.get()`. -/
def Cursor.start (this : Stack T) (d : T) : Cursor T :=
  match this._top with
  | [] => { above := [], cur := d, next := [], empty := true }
  | _ :: next => { above := [], cur := d, next := next, empty := false }

/-- The cursor at the start of the pass that follows the passes for the source
elements `ds`. -/
def Cursor.after (c : Cursor T) (ds : List T) : Cursor T :=
  ds.foldl Cursor.step c

/-- The values assigned to the flag `empty` at line 189, one for each pass of
the loop over the source nodes `otcr`: `true` when the pass links a new node
(line 191), `false` when it overwrites the data of an existing one (line
192). -/
def Cursor.flags : Cursor T → List T → List Bool
  | _, [] => []
  | c, d :: otcr => (c.step d).empty :: Cursor.flags (c.step d) otcr

/-- For each position of the source, from the top, whether the copy of lines
179 to 196 allocates a node for it (`true`) or overwrites a node of `this`
(`false`). -/
def copyFlags (this other : Stack T) : List Bool :=
  match other._top with
  | [] => []
  | d :: otcr => (Cursor.start this d).empty :: (Cursor.start this d).flags otcr

/-- The body of the loop with the test `thcr->next == nullptr` alone in line
190, the flag `empty` left out of the condition. -/
def Cursor.stepNoFlag (c : Cursor T) (d : T) : Cursor T :=
  if c.next.isEmpty then
    { above := c.above ++ [c.cur], cur := d, next := [], empty := true }
  else
    { above := c.above ++ [c.cur], cur := d, next := c.next.tail, empty := false }

/-- The loop of `copyLoop` with `Cursor.stepNoFlag` as its body. -/
def copyLoopNoFlag (failAt : Option Nat) : Nat → Cursor T → List T → Bool × List T
  | _, c, [] => (true, c.above ++ [c.cur])
  | i, c, d :: otcr =>
    if failAt = some i then (false, c.chain)
    else copyLoopNoFlag failAt (i + 1) (c.stepNoFlag d) otcr

/-- The body of the copy-assignment with the loop deciding on
`thcr->next == nullptr` alone. -/
def copyBodyNoFlag (failAt : Option Nat) (this other : Stack T) : Res Unit (Stack T) :=
  match other._top with
  | [] => .nullDeref
  | d :: otcr =>
    if failAt = some 0 then .throw .copy_failure this
    else
      match copyLoopNoFlag failAt 1 (Cursor.start this d) otcr with
      | (true, chain) => .ret () { _top := chain, _size := other._size }
      | (false, chain) => .throw .copy_failure { this with _top := chain }

/-- A call of one of the two mutators. -/
inductive Op (T : Type) where
  | push (v : T)
  | pop
  deriving DecidableEq, Repr

end Stack

/-- The objects of type `Stack<T>` of a program, by address. -/
abbrev Store (T : Type) := Nat → Stack T

namespace Store

variable {T : Type}

/-- Write the object at address `a`. -/
def set (h : Store T) (a : Nat) (s : Stack T) : Store T :=
  fun b => if b = a then s else h b

/-- The store in which every object is a value-initialised stack. -/
def init : Store T := fun _ => Stack.valueInit

/-- The store with the given stacks at addresses 0 and 1. -/
def pair (s0 s1 : Stack T) : Store T := (init.set 0 s0).set 1 s1

/-- A store whose object 0 was default-initialised (`Stack<int> s;`) over
storage that held 7 where `_size` lies. -/
def garbage : Store Nat := init.set 0 (Stack.defaultInit 7)

/-- `operator=(Stack&&)` (lines 163 to 172) with `this` and `other` the
addresses of the two objects. -/
def moveAssign (this other : Nat) (h : Store T) : Store T :=
  if this = other then h
  else
    -- line 167: the chain of `other` goes to `this`, `other._top` becomes null
    let h1 := h.set this { h this with _top := (h other)._top }
    let h2 := h1.set other { h1 other with _top := [] }
    -- line 168
    let h3 := h2.set this { h2 this with _size := (h2 other)._size }
    -- line 169
    h3.set other { h3 other with _size := 0 }

/-- `Stack(Stack&&)` (lines 84 to 87): the members of the new object at `this`
are default-initialised, then `other` is move-assigned to it. -/
def ctorMove (indet : Nat) (this other : Nat) (h : Store T) : Store T :=
  moveAssign this other (h.set this (Stack.defaultInit indet))

/-- `operator=(const Stack&)` (lines 175 to 203) with `this` and `other` the
addresses of the two objects. -/
def copyAssign (failAt : Option Nat) (this other : Nat) (h : Store T) :
    Res Unit (Store T) :=
  if this = other then .ret () h
  else
    match Stack.copyBody failAt (h this) (h other) with
    | .ret _ s => .ret () (h.set this s)
    | .throw e s => .throw e (h.set this s)
    | .nullDeref => .nullDeref

/-- The stores a program can be in: each step is a constructor or a public
operation that returned.  The defaulted constructor of line 14 builds an object
either by default-initialisation (`Stack<T> s;`, rule `defaultInit`, `_size`
holding whatever `indet` the storage held) or by value-initialisation
(`Stack<T> s{};`, rule `ctorDefault`).  A `push` returns when its node could be
allocated, which leaves the number of nodes in the range of `std::size_t`; an
object under construction is a new object, different from the one it is built
from. -/
inductive Reachable : Store T → Prop where
  | init : Reachable init
  | defaultInit (h : Store T) (a indet : Nat) :
      Reachable h → Reachable (h.set a (Stack.defaultInit indet))
  | ctorDefault (h : Store T) (a : Nat) :
      Reachable h → Reachable (h.set a Stack.valueInit)
  | ctorList (h : Store T) (a : Nat) (list : List T) :
      Reachable h → list.length < SIZE_MOD → Reachable (h.set a (Stack.ctorList list))
  | ctorMove (h : Store T) (indet a b : Nat) :
      Reachable h → a ≠ b → Reachable (ctorMove indet a b h)
  | ctorCopy (h : Store T) (a b : Nat) (s : Stack T) :
      Reachable h → a ≠ b → Stack.ctorCopy none (h b) = .ret () s → Reachable (h.set a s)
  | push (h : Store T) (a : Nat) (v : T) :
      Reachable h → (h a)._top.length + 1 < SIZE_MOD → Reachable (h.set a ((h a).push v))
  | pop (h : Store T) (a : Nat) (v : T) (s : Stack T) :
      Reachable h → (h a).pop = .ret v s → Reachable (h.set a s)
  | moveAssign (h : Store T) (a b : Nat) :
      Reachable h → Reachable (moveAssign a b h)
  | copyAssign (h : Store T) (a b : Nat) (h1 : Store T) :
      Reachable h → copyAssign none a b h = .ret () h1 → Reachable h1

end Store

/-! ## The nodes in memory

A second embedding, one level down: nodes have addresses, a `unique_ptr<Node>`
is the address of a node or null, and two chains could share a node.  It is
used to show that they do not. -/

namespace Heap

variable {T : Type}

/-- `Stack<Type>::Node` (lines 44 to 59); `next` is the address of the node
the `unique_ptr` owns, or `none` for null. -/
structure Node (T : Type) where
  /-- `std::unique_ptr<Node> next` -/
  next : Option Nat
  /-- `Type data` -/
  data : T

/-- The data members of a `Stack<Type>` object (lines 61 to 63), `_top` being
the address of the top node or null. -/
structure Obj where
  /-- `std::size_t _size` -/
  _size : Nat
  /-- `std::unique_ptr<Node> _top` -/
  _top : Option Nat
  deriving DecidableEq, Repr

/-- The memory of a program: the live nodes by address, the address the next
`make_unique` returns (the addresses from `brk` on were never handed out), and
the `Stack<Type>` objects by address. -/
structure Mem (T : Type) where
  /-- the live nodes -/
  node : Nat → Option (Node T)
  /-- the next address to hand out -/
  brk : Nat
  /-- the stack objects -/
  obj : Nat → Obj

/-- Outcome of an operation on the memory. -/
inductive Out (α σ : Type) where
  /-- normal return -/
  | ret (val : α) (st : σ)
  /-- an exception reaches the caller -/
  | throw (e : Exn) (st : σ)
  /-- a pointer that is null or does not point to a live node was dereferenced -/
  | fault
  /-- the bound on the number of passes of a loop was reached -/
  | fuel

/-- The map `f` with the entry at `a` replaced by `v`. -/
def upd {α : Type} (f : Nat → α) (a : Nat) (v : α) : Nat → α :=
  fun b => if b = a then v else f b

/-- The memory without nodes, every object value-initialised. -/
def Mem.init : Mem T := ⟨fun _ => none, 0, fun _ => ⟨0, none⟩⟩

/-- Destruction of the node a `unique_ptr` owns: the node is deleted, and with
it the node its `next` owns, and so on down the chain. -/
def destroy : Nat → (Nat → Option (Node T)) → Option Nat → Nat → Option (Node T)
  | _, node, none => node
  | 0, node, some _ => node
  | f + 1, node, some p =>
    match node p with
    | none => node
    | some nd => destroy f (upd node p none) nd.next

/-- `push` (lines 103 to 107) on the object at `a`: `make_unique` returns the
address `brk` of a new node that takes over the old `_top`. -/
def push (a : Nat) (data : T) (m : Mem T) : Mem T :=
  { node := upd m.node m.brk (some ⟨(m.obj a)._top, data⟩)
    brk := m.brk + 1
    obj := upd m.obj a ⟨((m.obj a)._size + 1) % SIZE_MOD, some m.brk⟩ }

/-- `pop` (lines 129 to 138) on the object at `a`: `_top` takes over the `next`
of the top node, and the top node is deleted. -/
def pop (a : Nat) (m : Mem T) : Out T (Mem T) :=
  match (m.obj a)._top with
  | none => .throw .out_of_range m
  | some p =>
    match m.node p with
    | none => .fault
    | some nd =>
      .ret nd.data
        { m with
          node := upd m.node p none
          obj := upd m.obj a ⟨((m.obj a)._size + SIZE_MOD - 1) % SIZE_MOD, nd.next⟩ }

/-- The loop of lines 187 to 196 and line 198, with `thcr` and `otcr` as
addresses.  Line 191 allocates the node at `brk`, stores its address in
`thcr->next` and destroys what `thcr->next` owned before; line 192 writes the
data of the node `thcr->next` points to; lines 194 and 195 read the two `next`
fields afterwards; line 198 sets `thcr->next` to null without deleting. -/
def copyLoop : Nat → Mem T → Bool → Nat → Option Nat → Out Unit (Mem T)
  | _, m, _, thcr, none =>
    match m.node thcr with
    | none => .fault
    | some tn => .ret () { m with node := upd m.node thcr (some { tn with next := none }) }
  | 0, _, _, _, some _ => .fuel
  | f + 1, m, empty, thcr, some q =>
    match m.node q, m.node thcr with
    | some sn, some tn =>
      if empty || tn.next.isNone then
        let node1 := upd m.node m.brk (some ⟨none, sn.data⟩)
        let node2 := upd node1 thcr (some { tn with next := some m.brk })
        let node3 := destroy m.brk node2 tn.next
        match node3 q with
        | none => .fault
        | some sn1 => copyLoop f { m with node := node3, brk := m.brk + 1 } true m.brk sn1.next
      else
        match tn.next with
        | none => .fault
        | some p =>
          match m.node p with
          | none => .fault
          | some pn =>
            let node1 := upd m.node p (some { pn with data := sn.data })
            match node1 q with
            | none => .fault
            | some sn1 => copyLoop f { m with node := node1 } false p sn1.next
    | _, _ => .fault

/-- `operator=(const Stack&)` (lines 175 to 203) on the objects at `this` and
`other`, every allocation and every copy of an element succeeding; `fuel`
bounds the number of passes of the loop. -/
def copyAssign (fuel : Nat) (this other : Nat) (m : Mem T) : Out Unit (Mem T) :=
  if this = other then .ret () m
  else
    match (m.obj other)._top with
    | none => .fault
    | some q =>
      match m.node q with
      | none => .fault
      | some sn =>
        let first : Option (Mem T × Bool × Nat) :=
          match (m.obj this)._top with
          | none =>
            some ({ node := upd m.node m.brk (some ⟨none, sn.data⟩)
                    brk := m.brk + 1
                    obj := upd m.obj this { m.obj this with _top := some m.brk } }, true, m.brk)
          | some p =>
            match m.node p with
            | none => none
            | some pn =>
              some ({ m with node := upd m.node p (some { pn with data := sn.data }) }, false, p)
        match first with
        | none => .fault
        | some (m1, empty, thcr) =>
          match m1.node q with
          | none => .fault
          | some sn1 =>
            match copyLoop fuel m1 empty thcr sn1.next with
            | .ret _ m2 =>
              .ret ()
                { m2 with
                  obj := upd m2.obj this { m2.obj this with _size := (m2.obj other)._size } }
            | .throw e m2 => .throw e m2
            | .fault => .fault
            | .fuel => .fuel

/-- `Stack(const Stack&)` (lines 90 to 93): the object at `this` is
value-initialised by `: Stack()`, then `other` is copy-assigned to it. -/
def ctorCopy (fuel : Nat) (this other : Nat) (m : Mem T) : Out Unit (Mem T) :=
  copyAssign fuel this other { m with obj := upd m.obj this ⟨0, none⟩ }

/-- One call of a mutator on the object at `a`; a `pop()` that throws leaves
the memory the exception carries, a dereference of a dead pointer gives
`none`. -/
def call (a : Nat) (m : Mem T) : Stack.Op T → Option (Mem T)
  | .push v => some (push a v m)
  | .pop =>
    match pop a m with
    | .ret _ m1 => some m1
    | .throw _ m1 => some m1
    | .fault => none
    | .fuel => none

/-- A sequence of calls of the mutators on the object at `a`, in order. -/
def calls (a : Nat) : List (Stack.Op T) → Mem T → Option (Mem T)
  | [], m => some m
  | op :: ops, m =>
    match call a m op with
    | some m1 => calls a ops m1
    | none => none

/-- A memory with two stacks of numbers: object 1 after `push 1, push 2,
push 3` (nodes 0, 1, 2) and object 0 after `push 8, push 9` (nodes 3, 4). -/
def Mem.sample : Mem Nat :=
  push 0 9 (push 0 8 (push 1 3 (push 1 2 (push 1 1 Mem.init))))

/-- The addresses of a chain given as a list of nodes (address and data). -/
def addrs (l : List (Nat × T)) : List Nat := l.map Prod.fst

/-- The element sequence of a chain given as a list of nodes. -/
def datas (l : List (Nat × T)) : List T := l.map Prod.snd

/-- The chain that starts at the pointer `p` consists of the nodes `l`, from
the top: each is live at its address, holds its data and points to the next,
and the last one has a null `next`. -/
def IsChain (node : Nat → Option (Node T)) : Option Nat → List (Nat × T) → Prop
  | p, [] => p = none
  | p, (x, d) :: l => p = some x ∧ ∃ nx, node x = some ⟨nx, d⟩ ∧ IsChain node nx l

/-- The chain of the object at `a` consists of the nodes `l`. -/
def Owns (m : Mem T) (a : Nat) (l : List (Nat × T)) : Prop :=
  IsChain m.node (m.obj a)._top l

/-- The objects at `a` and `b` own the chains `la` and `lb`, no node occurs
twice in a chain or in both chains, and every node of them lies below `brk`. -/
structure TwoChains (m : Mem T) (a b : Nat) (la lb : List (Nat × T)) : Prop where
  /-- the chain of `a` -/
  ownsA : Owns m a la
  /-- the chain of `b` -/
  ownsB : Owns m b lb
  /-- no node twice in the chain of `a` -/
  nodupA : (addrs la).Nodup
  /-- no node twice in the chain of `b` -/
  nodupB : (addrs lb).Nodup
  /-- no node in both chains -/
  apart : ∀ x ∈ addrs la, x ∉ addrs lb
  /-- the nodes of `a` were handed out by `make_unique` -/
  belowA : ∀ x ∈ addrs la, x < m.brk
  /-- the nodes of `b` were handed out by `make_unique` -/
  belowB : ∀ x ∈ addrs lb, x < m.brk

end Heap

/-! ## Auxiliary facts -/

namespace Stack

variable {T : Type}

theorem push_top (s : Stack T) (v : T) : (s.push v)._top = v :: s._top := rfl

theorem push_size_of_lt (s : Stack T) (v : T) (h : s._size + 1 < SIZE_MOD) :
    (s.push v)._size = s._size + 1 := by
  simp only [push]
  exact Nat.mod_eq_of_lt h

/-- After pushing `vs` one by one on `s` the chain is `vs` reversed in front of
the chain of `s`, and the counter has gone up by the number of pushes when
that stays in range. -/
theorem foldl_push (vs : List T) (s : Stack T) (h : s._size + vs.length < SIZE_MOD) :
    vs.foldl push s = ⟨s._size + vs.length, vs.reverse ++ s._top⟩ := by
  induction vs generalizing s with
  | nil => simp
  | cons v vs ih =>
    simp only [List.length_cons] at h
    have h1 : (s.push v)._size = s._size + 1 := push_size_of_lt s v (by omega)
    rw [List.foldl_cons, ih (s.push v) (by rw [h1]; omega), h1, push_top]
    simp only [List.length_cons, List.reverse_cons, List.append_assoc,
      List.singleton_append, mk.injEq, and_true]
    omega

theorem pop_cons (n : Nat) (v : T) (l : List T) :
    pop (⟨n, v :: l⟩ : Stack T) = .ret v ⟨(n + SIZE_MOD - 1) % SIZE_MOD, l⟩ := rfl

theorem pop_nil (n : Nat) :
    pop (⟨n, []⟩ : Stack T) = .throw .out_of_range ⟨n, []⟩ := rfl

/-- The decrement of a counter that is in range and not zero. -/
theorem dec_size (n : Nat) (h : n + 1 < SIZE_MOD) :
    (n + 1 + SIZE_MOD - 1) % SIZE_MOD = n := by
  have : n + 1 + SIZE_MOD - 1 = n + SIZE_MOD := by omega
  rw [this, Nat.add_mod_right]
  exact Nat.mod_eq_of_lt (by omega)

/-- On a stack that satisfies the invariant, `k` pops (with `k` at most the
length) return the first `k` elements of the chain. -/
theorem popN_of_length (k : Nat) (l : List T) (hl : l.length < SIZE_MOD)
    (hk : k ≤ l.length) :
    popN k (⟨l.length, l⟩ : Stack T) = .ret (l.take k) ⟨l.length - k, l.drop k⟩ := by
  induction k generalizing l with
  | zero => simp [popN]
  | succ k ih =>
    cases l with
    | nil => simp at hk
    | cons v l =>
      simp only [List.length_cons] at hl hk
      simp only [popN, List.length_cons, pop_cons, dec_size l.length hl]
      rw [ih l (by omega) (by omega)]
      simp

theorem Inv_valueInit : Inv (valueInit : Stack T) := by
  simp [Inv, valueInit, defaultInit, SIZE_MOD]

theorem Inv_push (s : Stack T) (v : T) (hs : Inv s) (hb : s._top.length + 1 < SIZE_MOD) :
    Inv (s.push v) := by
  obtain ⟨h1, _⟩ := hs
  refine ⟨?_, by simpa [push] using hb⟩
  rw [push_size_of_lt s v (by omega), push_top, List.length_cons, h1]

theorem Inv_pop (s s1 : Stack T) (v : T) (hs : Inv s) (hp : s.pop = .ret v s1) : Inv s1 := by
  obtain ⟨n, l⟩ := s
  obtain ⟨h1, h2⟩ := hs
  cases l with
  | nil => simp [pop] at hp
  | cons x l =>
    simp only [List.length_cons] at h1 h2
    simp only [pop_cons, Res.ret.injEq] at hp
    obtain ⟨_, rfl⟩ := hp
    subst h1
    exact ⟨dec_size _ h2, by simp only; omega⟩

theorem Inv_ctorList (l : List T) (hl : l.length < SIZE_MOD) : Inv (ctorList l) := by
  unfold ctorList
  rw [foldl_push l valueInit (by simpa [valueInit, defaultInit] using hl)]
  simpa [Inv, valueInit, defaultInit] using hl

/-- Under the invariant the counter is zero exactly when `_top` is null. -/
theorem Inv.size_eq_zero_iff {s : Stack T} (hs : Inv s) : s._size = 0 ↔ s._top = [] := by
  rw [hs.1, List.length_eq_zero]

theorem pop_throws_iff (s : Stack T) : (pop s).throws .out_of_range = true ↔ s._top = [] := by
  obtain ⟨n, l⟩ := s
  cases l <;> simp [pop, Res.throws]

theorem peek_throws_iff (s : Stack T) : (peek s).throws .out_of_range = true ↔ s._top = [] := by
  obtain ⟨n, l⟩ := s
  cases l <;> simp [peek, Res.throws]

/-- Without a failing copy the loop runs to the end and leaves, below the
cursor, the rest of the source. -/
theorem copyLoop_none (i : Nat) (c : Cursor T) (otcr : List T) :
    copyLoop none i c otcr = (true, c.above ++ c.cur :: otcr) := by
  induction otcr generalizing i c with
  | nil => simp [copyLoop]
  | cons d otcr ih =>
    rw [copyLoop, if_neg (by simp), ih]
    unfold Cursor.step
    split <;> simp

/-- A copy that meets no failure and whose source has a node returns, with the
target equal to the source. -/
theorem copyBody_none (this other : Stack T) (h : other._top ≠ []) :
    copyBody none this other = .ret () other := by
  obtain ⟨n, l⟩ := other
  cases l with
  | nil => exact absurd rfl h
  | cons d otcr =>
    simp only [copyBody, copyLoop_none]
    cases this._top <;> simp

/-- A source without a node makes the copy dereference a null pointer. -/
theorem copyBody_nil (failAt : Option Nat) (this other : Stack T) (h : other._top = []) :
    copyBody failAt this other = .nullDeref := by
  obtain ⟨n, l⟩ := other
  subst h
  rfl

/-- A copy that returns comes from a source with a node and leaves the source
state in the target. -/
theorem copyBody_ret (this other s : Stack T) (h : copyBody none this other = .ret () s) :
    other._top ≠ [] ∧ s = other := by
  by_cases ho : other._top = []
  · rw [copyBody_nil none this other ho] at h
    cases h
  · rw [copyBody_none this other ho] at h
    simp only [Res.ret.injEq, true_and] at h
    exact ⟨ho, h.symm⟩

/-- When the copy at source position `k` throws inside the loop, the chain of
`this` holds, below the cursor the loop started from, the source elements that
were copied followed by what is left of the old chain. -/
theorem copyLoop_fail (k : Nat) (otcr : List T) (i : Nat) (c : Cursor T)
    (hc : c.empty = true → c.next = []) (hik : i ≤ k) (hk : k - i < otcr.length) :
    copyLoop (some k) i c otcr
      = (false, c.above ++ c.cur :: (otcr.take (k - i) ++ c.next.drop (k - i))) := by
  induction otcr generalizing i c with
  | nil => simp at hk
  | cons d otcr ih =>
    by_cases hki : k = i
    · subst hki
      simp [copyLoop, Cursor.chain]
    · have h1 : k - i = (k - (i + 1)) + 1 := by omega
      simp only [List.length_cons] at hk
      rw [copyLoop, if_neg (by simpa using hki), h1]
      by_cases hn : c.empty || c.next.isEmpty
      · have hnil : c.next = [] := by
          rcases Bool.or_eq_true _ _ |>.mp hn with h2 | h2
          · exact hc h2
          · exact List.isEmpty_iff.mp h2
        have hs : c.step d = ⟨c.above ++ [c.cur], d, [], true⟩ := by
          simp [Cursor.step, hn]
        rw [ih (i + 1) (c.step d) (by rw [hs]; intro _; rfl) (by omega) (by omega), hs, hnil]
        simp
      · have hs : c.step d = ⟨c.above ++ [c.cur], d, c.next.tail, false⟩ := by
          simp [Cursor.step, hn]
        rw [ih (i + 1) (c.step d) (by rw [hs]; intro h2; cases h2) (by omega) (by omega), hs]
        simp

/-- The state in which a copy leaves `this` when the copy of the source element
at position `k` throws. -/
theorem copyBody_fail (this other : Stack T) (k : Nat) (hk : k < other._top.length) :
    copyBody (some k) this other
      = .throw .copy_failure ⟨this._size, other._top.take k ++ this._top.drop k⟩ := by
  obtain ⟨n, l⟩ := other
  obtain ⟨m, t⟩ := this
  cases l with
  | nil => simp at hk
  | cons d otcr =>
    simp only [List.length_cons] at hk
    cases k with
    | zero => simp [copyBody]
    | succ k =>
      have h0 : ¬ (some (k + 1) = some 0) := by simp
      cases t with
      | nil =>
        simp only [copyBody, if_neg h0]
        rw [copyLoop_fail (k + 1) otcr 1 _ (fun _ => rfl) (by omega) (by omega)]
        simp
      | cons x t =>
        simp only [copyBody, if_neg h0]
        rw [copyLoop_fail (k + 1) otcr 1 _ (fun h2 => by cases h2) (by omega) (by omega)]
        simp

end Stack

namespace Store

variable {T : Type}

theorem set_same (h : Store T) (a : Nat) (s : Stack T) : (h.set a s) a = s := by
  simp [set]

theorem set_other (h : Store T) (a b : Nat) (s : Stack T) (hb : b ≠ a) :
    (h.set a s) b = h b := by
  simp [set, hb]

/-- The store after a move-assignment between two different objects. -/
theorem moveAssign_of_ne (h : Store T) (this other : Nat) (hne : this ≠ other) :
    moveAssign this other h = (h.set this (h other)).set other ⟨0, []⟩ := by
  funext c
  have hne1 : other ≠ this := fun e => hne e.symm
  simp only [moveAssign, if_neg hne, set]
  by_cases hc : c = other
  · subst hc; simp [hne1]
  · by_cases hc1 : c = this
    · subst hc1; simp [hne, hne1]
    · simp [hc, hc1]

theorem moveAssign_self (h : Store T) (a : Nat) : moveAssign a a h = h := by
  simp [moveAssign]

/-- A copy-assignment between two different objects that meets no failure and
whose source has a node. -/
theorem copyAssign_of_ne (h : Store T) (this other : Nat) (hne : this ≠ other)
    (hsrc : (h other)._top ≠ []) :
    copyAssign none this other h = .ret () (h.set this (h other)) := by
  simp [copyAssign, hne, Stack.copyBody_none _ _ hsrc]

/-- A copy-assignment that returns leaves every object with the state of an
object of the store it started from, the target with that of the source. -/
theorem copyAssign_ret (h h1 : Store T) (this other : Nat)
    (hr : copyAssign none this other h = .ret () h1) :
    h1 = h.set this (h other) := by
  by_cases hne : this = other
  · subst hne
    simp only [copyAssign, if_true, Res.ret.injEq, true_and] at hr
    subst hr
    funext c
    by_cases hc : c = this
    · subst hc; simp [set]
    · simp [set, hc]
  · by_cases ho : (h other)._top = []
    · simp [copyAssign, hne, Stack.copyBody_nil _ _ _ ho] at hr
    · rw [copyAssign_of_ne h this other hne ho] at hr
      simp only [Res.ret.injEq, true_and] at hr
      exact hr.symm

end Store

/-! ## Auxiliary facts on the copy loop -/

namespace Stack

variable {T : Type}

/-- After a pass of the loop the flag is `true` only with a null `thcr->next`. -/
theorem Cursor.step_flag (c : Cursor T) (d : T) :
    (c.step d).empty = true → (c.step d).next = [] := by
  unfold Cursor.step
  split
  · intro _; rfl
  · intro h; cases h

theorem Cursor.start_flag (this : Stack T) (d : T) :
    (Cursor.start this d).empty = true → (Cursor.start this d).next = [] := by
  unfold Cursor.start
  split
  · intro _; rfl
  · intro h; cases h

/-- At the start of every pass, a flag that is `true` comes with a null
`thcr->next`. -/
theorem Cursor.after_flag (c : Cursor T) (hc : c.empty = true → c.next = []) (ds : List T) :
    (c.after ds).empty = true → (c.after ds).next = [] := by
  induction ds generalizing c with
  | nil => exact hc
  | cons d ds ih => exact ih (c.step d) (Cursor.step_flag c d)

/-- With a flag that is `true` only on a null `thcr->next`, the flag does not
change the branch a pass takes. -/
theorem Cursor.stepNoFlag_eq (c : Cursor T) (hc : c.empty = true → c.next = []) (d : T) :
    c.stepNoFlag d = c.step d := by
  obtain ⟨ab, cur, nx, e⟩ := c
  cases e with
  | false => simp only [Cursor.stepNoFlag, Cursor.step, Bool.false_or]
  | true =>
    have h0 : nx = [] := hc rfl
    subst h0
    simp [Cursor.stepNoFlag, Cursor.step]

theorem copyLoopNoFlag_eq (failAt : Option Nat) (i : Nat) (c : Cursor T)
    (hc : c.empty = true → c.next = []) (otcr : List T) :
    copyLoopNoFlag failAt i c otcr = copyLoop failAt i c otcr := by
  induction otcr generalizing i c with
  | nil => simp [copyLoopNoFlag, copyLoop]
  | cons d otcr ih =>
    rw [copyLoopNoFlag, copyLoop, Cursor.stepNoFlag_eq c hc d,
      ih (i + 1) (c.step d) (Cursor.step_flag c d)]

/-- The body of the copy written with `Cursor.start`. -/
theorem copyBody_start (failAt : Option Nat) (this other : Stack T) :
    copyBody failAt this other =
      match other._top with
      | [] => .nullDeref
      | d :: otcr =>
        if failAt = some 0 then .throw .copy_failure this
        else
          match copyLoop failAt 1 (Cursor.start this d) otcr with
          | (true, chain) => .ret () { _top := chain, _size := other._size }
          | (false, chain) => .throw .copy_failure { this with _top := chain } := by
  unfold copyBody Cursor.start
  rfl

theorem copyBodyNoFlag_eq (failAt : Option Nat) (this other : Stack T) :
    copyBodyNoFlag failAt this other = copyBody failAt this other := by
  rw [copyBody_start]
  unfold copyBodyNoFlag
  cases other._top with
  | nil => rfl
  | cons d otcr =>
    simp only [copyLoopNoFlag_eq failAt 1 _ (Cursor.start_flag this d) otcr]

/-- The passes of the loop overwrite as long as `thcr->next` has nodes and
allocate from then on. -/
theorem Cursor.flags_eq (otcr : List T) (c : Cursor T) (hc : c.empty = true → c.next = []) :
    c.flags otcr
      = List.replicate (min c.next.length otcr.length) false
          ++ List.replicate (otcr.length - c.next.length) true := by
  induction otcr generalizing c with
  | nil => simp [Cursor.flags]
  | cons d otcr ih =>
    rw [Cursor.flags, ih (c.step d) (Cursor.step_flag c d)]
    by_cases hn : c.empty || c.next.isEmpty
    · have hnil : c.next = [] := by
        rcases Bool.or_eq_true _ _ |>.mp hn with h2 | h2
        · exact hc h2
        · exact List.isEmpty_iff.mp h2
      have hs : c.step d = ⟨c.above ++ [c.cur], d, [], true⟩ := by
        simp [Cursor.step, hn]
      rw [hs, hnil]
      simp [List.replicate_succ]
    · have hs : c.step d = ⟨c.above ++ [c.cur], d, c.next.tail, false⟩ := by
        simp [Cursor.step, hn]
      have hne : c.next ≠ [] := by
        intro h0
        apply hn
        simp [h0]
      obtain ⟨x, xs, hx⟩ := List.exists_cons_of_ne_nil hne
      rw [hs, hx]
      simp only [List.tail_cons, List.length_cons, Nat.add_sub_add_right]
      rw [Nat.add_min_add_right, List.replicate_succ, List.cons_append]

/-- The copy overwrites the positions the target has and allocates the
others. -/
theorem copyFlags_eq (this other : Stack T) :
    copyFlags this other
      = List.replicate (min this._top.length other._top.length) false
          ++ List.replicate (other._top.length - this._top.length) true := by
  obtain ⟨n, l⟩ := other
  obtain ⟨m, t⟩ := this
  cases l with
  | nil => simp [copyFlags]
  | cons d otcr =>
    simp only [copyFlags]
    rw [Cursor.flags_eq otcr _ (Cursor.start_flag _ d)]
    cases t with
    | nil => simp [Cursor.start, List.replicate_succ]
    | cons x xs =>
      simp only [Cursor.start, List.length_cons, Nat.add_sub_add_right]
      rw [Nat.add_min_add_right, List.replicate_succ, List.cons_append]

/-- A `push` followed by a `pop` gives back the pushed value and the state,
for every value of the counter in the range of `std::size_t`. -/
theorem pop_push (s : Stack T) (v : T) (hs : s._size < SIZE_MOD) :
    pop (push s v) = .ret v s := by
  obtain ⟨n, l⟩ := s
  simp only at hs
  simp only [push, pop_cons, Res.ret.injEq, mk.injEq, and_true, true_and]
  unfold SIZE_MOD at hs ⊢
  omega

end Stack

namespace Store

variable {T : Type}

theorem copyAssign_self (failAt : Option Nat) (h : Store T) (a : Nat) :
    copyAssign failAt a a h = .ret () h := by
  simp [copyAssign]

end Store

/-! ## Auxiliary facts on the nodes in memory -/

namespace Heap

variable {T : Type}

theorem upd_same {α : Type} (f : Nat → α) (a : Nat) (v : α) : upd f a v a = v := by
  simp [upd]

theorem upd_other {α : Type} (f : Nat → α) (a b : Nat) (v : α) (hb : b ≠ a) :
    upd f a v b = f b := by
  simp [upd, hb]

theorem addrs_cons (x : Nat) (d : T) (l : List (Nat × T)) :
    addrs ((x, d) :: l) = x :: addrs l := rfl

theorem datas_cons (x : Nat) (d : T) (l : List (Nat × T)) :
    datas ((x, d) :: l) = d :: datas l := rfl

/-- A chain is not affected by writes to addresses outside it. -/
theorem IsChain.frame {node node1 : Nat → Option (Node T)} {l : List (Nat × T)}
    {p : Option Nat} (h : IsChain node p l) (hf : ∀ x ∈ addrs l, node1 x = node x) :
    IsChain node1 p l := by
  induction l generalizing p with
  | nil => exact h
  | cons xd l ih =>
    obtain ⟨x, d⟩ := xd
    obtain ⟨hp, nx, hx, hl⟩ := h
    refine ⟨hp, nx, ?_, ih hl (fun y hy => hf y (by simp [addrs_cons, hy]))⟩
    rw [hf x (by simp [addrs_cons]), hx]

/-- A null pointer starts the empty chain only. -/
theorem IsChain.of_none {node : Nat → Option (Node T)} {l : List (Nat × T)}
    (h : IsChain node none l) : l = [] := by
  cases l with
  | nil => rfl
  | cons xd l =>
    obtain ⟨x, d⟩ := xd
    exact absurd h.1 (by simp)

theorem TwoChains.symm {m : Mem T} {a b : Nat} {la lb : List (Nat × T)}
    (h : TwoChains m a b la lb) : TwoChains m b a lb la :=
  ⟨h.ownsB, h.ownsA, h.nodupB, h.nodupA, fun x hx hx1 => h.apart x hx1 hx, h.belowB, h.belowA⟩

/-- A `push` on `b` puts one new node, at `brk`, in front of the chain of `b`
and leaves the object `a` and its nodes as they were. -/
theorem twoChains_push {m : Mem T} {a b : Nat} {la lb : List (Nat × T)}
    (h : TwoChains m a b la lb) (hne : b ≠ a) (v : T) :
    TwoChains (Heap.push b v m) a b la ((m.brk, v) :: lb)
      ∧ (Heap.push b v m).obj a = m.obj a := by
  have hne1 : a ≠ b := fun e => hne e.symm
  have hoa : (Heap.push b v m).obj a = m.obj a := by simp [Heap.push, upd, hne1]
  refine ⟨⟨?_, ?_, h.nodupA, ?_, ?_, ?_, ?_⟩, hoa⟩
  · unfold Owns
    rw [hoa]
    refine IsChain.frame h.ownsA (fun x hx => ?_)
    have := h.belowA x hx
    simp only [Heap.push]
    rw [upd_other _ _ _ _ (by omega)]
  · unfold Owns
    refine ⟨by simp [Heap.push, upd], (m.obj b)._top, by simp [Heap.push, upd], ?_⟩
    refine IsChain.frame h.ownsB (fun x hx => ?_)
    have := h.belowB x hx
    simp only [Heap.push]
    rw [upd_other _ _ _ _ (by omega)]
  · rw [addrs_cons, List.nodup_cons]
    refine ⟨fun hx => ?_, h.nodupB⟩
    have := h.belowB _ hx
    omega
  · intro x hx
    rw [addrs_cons, List.mem_cons]
    rintro (rfl | hx1)
    · have := h.belowA _ hx
      omega
    · exact h.apart x hx hx1
  · intro x hx
    have := h.belowA x hx
    simp only [Heap.push]
    omega
  · intro x hx
    rw [addrs_cons, List.mem_cons] at hx
    simp only [Heap.push]
    rcases hx with rfl | hx
    · omega
    · have := h.belowB x hx
      omega

/-- One call of a mutator on `b` returns or throws, leaves the object `a` and
its nodes as they were, and keeps the two chains apart. -/
theorem twoChains_call {m : Mem T} {a b : Nat} {la lb : List (Nat × T)}
    (h : TwoChains m a b la lb) (hne : b ≠ a) (op : Stack.Op T) :
    ∃ m1 lb1, Heap.call b m op = some m1 ∧ TwoChains m1 a b la lb1 ∧ m1.obj a = m.obj a := by
  have hne1 : a ≠ b := fun e => hne e.symm
  cases op with
  | push v => exact ⟨_, _, rfl, (twoChains_push h hne v).1, (twoChains_push h hne v).2⟩
  | pop =>
    cases lb with
    | nil =>
      have ht : (m.obj b)._top = none := h.ownsB
      refine ⟨m, [], ?_, h, rfl⟩
      simp [Heap.call, Heap.pop, ht]
    | cons xd lb =>
      obtain ⟨x, d⟩ := xd
      obtain ⟨ht, nx, hx, hl⟩ := h.ownsB
      have hnd := h.nodupB
      rw [addrs_cons, List.nodup_cons] at hnd
      have hcall : Heap.call b m .pop = some
          { m with
            node := upd m.node x none
            obj := upd m.obj b ⟨((m.obj b)._size + SIZE_MOD - 1) % SIZE_MOD, nx⟩ } := by
        simp only [Heap.call, Heap.pop, ht, hx]
      refine ⟨_, lb, hcall, ⟨?_, ?_, h.nodupA, hnd.2, ?_, ?_, ?_⟩, by simp [upd, hne1]⟩
      · unfold Owns
        simp only [upd_other _ _ _ _ hne1]
        refine IsChain.frame h.ownsA (fun y hy => ?_)
        have hy1 : y ≠ x := fun e => h.apart y hy (by simp [addrs_cons, e])
        rw [upd_other _ _ _ _ hy1]
      · unfold Owns
        simp only [upd_same]
        refine IsChain.frame hl (fun y hy => ?_)
        have hy1 : y ≠ x := fun e => hnd.1 (e ▸ hy)
        rw [upd_other _ _ _ _ hy1]
      · intro y hy hy1
        exact h.apart y hy (by simp [addrs_cons, hy1])
      · exact h.belowA
      · intro y hy
        exact h.belowB y (by simp [addrs_cons, hy])

/-- A sequence of calls of the mutators on `b` runs to its end, leaves the
object `a` and its nodes as they were, and keeps the two chains apart. -/
theorem twoChains_calls {a b : Nat} {la : List (Nat × T)} (hne : b ≠ a)
    (ops : List (Stack.Op T)) (m : Mem T) (lb : List (Nat × T))
    (h : TwoChains m a b la lb) :
    ∃ m1 lb1, Heap.calls b ops m = some m1 ∧ TwoChains m1 a b la lb1 ∧ m1.obj a = m.obj a := by
  induction ops generalizing m lb with
  | nil => exact ⟨m, lb, rfl, h, rfl⟩
  | cons op ops ih =>
    obtain ⟨m1, lb1, h1, h2, h3⟩ := twoChains_call h hne op
    obtain ⟨m2, lb2, h4, h5, h6⟩ := ih m1 lb1 h2
    exact ⟨m2, lb2, by simp only [Heap.calls, h1, h4], h5, by rw [h6, h3]⟩

theorem destroy_none (f : Nat) (node : Nat → Option (Node T)) :
    destroy f node none = node := by
  cases f <;> rfl

/-- The end of the loop (line 198). -/
theorem copyLoop_end (fuel : Nat) (m : Mem T) (empty : Bool) (thcr : Nat) (tn : Node T)
    (ht : m.node thcr = some tn) :
    copyLoop fuel m empty thcr none
      = .ret () { m with node := upd m.node thcr (some { tn with next := none }) } := by
  cases fuel <;> simp only [copyLoop, ht]

/-- A pass that allocates (line 191), the old `thcr->next` being null. -/
theorem copyLoop_alloc (f : Nat) (m : Mem T) (empty : Bool) (thcr q : Nat) (sn tn sn1 : Node T)
    (hq : m.node q = some sn) (ht : m.node thcr = some tn) (hn : tn.next = none)
    (hq1 : upd (upd m.node m.brk (some ⟨none, sn.data⟩)) thcr
        (some { tn with next := some m.brk }) q = some sn1) :
    copyLoop (f + 1) m empty thcr (some q)
      = copyLoop f
          { m with
            node := upd (upd m.node m.brk (some ⟨none, sn.data⟩)) thcr
              (some { tn with next := some m.brk })
            brk := m.brk + 1 } true m.brk sn1.next := by
  simp only [copyLoop, hq, ht, hn, destroy_none, hq1, Option.isNone_none, Bool.or_true,
    if_true]

/-- A pass that overwrites (line 192). -/
theorem copyLoop_write (f : Nat) (m : Mem T) (thcr q p : Nat)
    (sn tn pn sn1 : Node T)
    (hq : m.node q = some sn) (ht : m.node thcr = some tn)
    (hn : tn.next = some p) (hp : m.node p = some pn)
    (hq1 : upd m.node p (some { pn with data := sn.data }) q = some sn1) :
    copyLoop (f + 1) m false thcr (some q)
      = copyLoop f { m with node := upd m.node p (some { pn with data := sn.data }) }
          false p sn1.next := by
  simp only [copyLoop, hq, ht, hn, hp, hq1, Option.isNone_some, Bool.or_false]
  simp

/-- The loop, started at a node `thcr` of a chain that shares no node with the
rest of the source, runs to the end: below `thcr` the chain then holds the
elements of the rest of the source, in nodes that were below `thcr` before or
are new, and no other node below `brk` has been written. -/
theorem copyLoop_spec (lrest : List (Nat × T)) :
    ∀ (fuel : Nat) (m : Mem T) (empty : Bool) (thcr : Nat) (otcr : Option Nat) (d0 : T)
      (lnext : List (Nat × T)),
      IsChain m.node (some thcr) ((thcr, d0) :: lnext) →
      IsChain m.node otcr lrest →
      (thcr :: addrs lnext).Nodup →
      (∀ x ∈ addrs lrest, x ∉ thcr :: addrs lnext) →
      (∀ x ∈ thcr :: addrs lnext, x < m.brk) →
      (∀ x ∈ addrs lrest, x < m.brk) →
      (empty = true → lnext = []) →
      lrest.length ≤ fuel →
      ∃ m1 lnew, copyLoop fuel m empty thcr otcr = .ret () m1
        ∧ IsChain m1.node (some thcr) ((thcr, d0) :: lnew)
        ∧ datas lnew = datas lrest
        ∧ (thcr :: addrs lnew).Nodup
        ∧ (∀ x ∈ addrs lnew, x ∈ addrs lnext ∨ m.brk ≤ x)
        ∧ (∀ x ∈ addrs lnew, x < m1.brk)
        ∧ m.brk ≤ m1.brk
        ∧ (∀ x, x ∉ thcr :: addrs lnext → x < m.brk → m1.node x = m.node x)
        ∧ m1.obj = m.obj := by
  induction lrest with
  | nil =>
    intro fuel m empty thcr otcr d0 lnext h1 h2 h4 _ _ _ _ _
    obtain ⟨_, nx, ht, _⟩ := h1
    have ho : otcr = none := h2
    subst ho
    refine ⟨_, [], copyLoop_end fuel m empty thcr _ ht, ?_, rfl, ?_, ?_, ?_, le_refl _, ?_, rfl⟩
    · exact ⟨rfl, none, by simp [upd_same], rfl⟩
    · simp [addrs]
    · intro x hx; simp [addrs] at hx
    · intro x hx; simp [addrs] at hx
    · intro x hx _
      have hx1 : x ≠ thcr := fun e => hx (by simp [e])
      simp only [upd_other _ _ _ _ hx1]
  | cons qd lr ih =>
    intro fuel m empty thcr otcr d0 lnext h1 h2 h4 h3 h5 h5b h6 hf
    obtain ⟨q, dq⟩ := qd
    obtain ⟨_, nx, ht, hl⟩ := h1
    obtain ⟨ho, nq, hq, hr⟩ := h2
    subst ho
    obtain ⟨f, rfl⟩ : ∃ f, fuel = f + 1 := ⟨fuel - 1, by simp at hf; omega⟩
    simp only [List.length_cons, Nat.add_le_add_iff_right] at hf
    have hthcr : thcr < m.brk := h5 thcr (by simp)
    have hqlt : q < m.brk := h5b q (by simp [addrs_cons])
    have hqne : q ≠ thcr := fun e => h3 q (by simp [addrs_cons]) (by simp [e])
    have hlr_lt : ∀ x ∈ addrs lr, x < m.brk := fun x hx => h5b x (by simp [addrs_cons, hx])
    have hlr_ne : ∀ x ∈ addrs lr, x ∉ thcr :: addrs lnext :=
      fun x hx => h3 x (by simp [addrs_cons, hx])
    by_cases hc : (empty || nx.isNone) = true
    · -- line 191: a new node
      have hnil : lnext = [] := by
        rcases Bool.or_eq_true _ _ |>.mp hc with h7 | h7
        · exact h6 h7
        · have h8 : nx = none := by simpa using h7
          rw [h8] at hl
          exact hl.of_none
      subst hnil
      have hnx : nx = none := hl
      subst hnx
      have hq1 : upd (upd m.node m.brk (some ⟨none, dq⟩)) thcr
          (some ⟨some m.brk, d0⟩) q = some ⟨nq, dq⟩ := by
        rw [upd_other _ _ _ _ hqne, upd_other _ _ _ _ (by omega), hq]
      obtain ⟨m1, lnew, e1, e2, e3, e4, e5, e6, e7, e8, e9⟩ :=
        ih f
          { m with
            node := upd (upd m.node m.brk (some ⟨none, dq⟩)) thcr (some ⟨some m.brk, d0⟩)
            brk := m.brk + 1 }
          true m.brk nq dq []
          ⟨rfl, none, by
            simp only
            rw [upd_other _ _ _ _ (by omega), upd_same], rfl⟩
          (IsChain.frame hr (fun x hx => by
            have h9 := hlr_lt x hx
            have h10 : x ≠ thcr := fun e => hlr_ne x hx (by simp [e])
            simp only
            rw [upd_other _ _ _ _ h10, upd_other _ _ _ _ (by omega)]))
          (by simp [addrs])
          (fun x hx => by
            have h9 := hlr_lt x hx
            simp only [addrs, List.map_nil, List.mem_singleton]
            omega)
          (fun x hx => by
            simp only [addrs, List.map_nil, List.mem_singleton] at hx
            simp only
            omega)
          (fun x hx => by
            have h9 := hlr_lt x hx
            simp only
            omega)
          (fun _ => rfl) hf
      simp only at e5 e7 e8 e9
      refine ⟨m1, (m.brk, dq) :: lnew, ?_, ?_, ?_, ?_, ?_, ?_, by omega, ?_, e9⟩
      · rw [copyLoop_alloc f m empty thcr q ⟨nq, dq⟩ ⟨none, d0⟩ ⟨nq, dq⟩ hq ht rfl hq1]
        exact e1
      · refine ⟨rfl, some m.brk, ?_, e2⟩
        rw [e8 thcr (by simp [addrs]; omega) (by omega), upd_same]
      · rw [datas_cons, datas_cons, e3]
      · rw [addrs_cons, List.nodup_cons]
        refine ⟨?_, e4⟩
        rw [List.mem_cons]
        rintro (h9 | h9)
        · omega
        · rcases e5 _ h9 with h10 | h10
          · simp [addrs] at h10
          · omega
      · intro x hx
        rw [addrs_cons, List.mem_cons] at hx
        rcases hx with rfl | hx
        · exact Or.inr (le_refl _)
        · rcases e5 x hx with h10 | h10
          · simp [addrs] at h10
          · exact Or.inr (by omega)
      · intro x hx
        rw [addrs_cons, List.mem_cons] at hx
        rcases hx with rfl | hx
        · omega
        · exact e6 x hx
      · intro x hx hxlt
        have hx1 : x ≠ thcr := fun e => hx (by simp [e])
        rw [e8 x (by simp [addrs]; omega) (by omega), upd_other _ _ _ _ hx1,
          upd_other _ _ _ _ (by omega)]
    · -- line 192: the data of the next node
      have hc1 : (empty || nx.isNone) = false := Bool.eq_false_iff.mpr hc
      have hem : empty = false := (Bool.or_eq_false_iff.mp hc1).1
      have hnn : nx.isNone = false := (Bool.or_eq_false_iff.mp hc1).2
      subst hem
      obtain ⟨p, rfl⟩ : ∃ p, nx = some p := by
        cases nx with
        | none => simp at hnn
        | some p => exact ⟨p, rfl⟩
      cases lnext with
      | nil => exact absurd hl (by simp [IsChain])
      | cons pd ln =>
        obtain ⟨p1, dp⟩ := pd
        obtain ⟨hp1, np, hp, hln⟩ := hl
        have hpp : p = p1 := by simpa using hp1
        subst hpp
        simp only [addrs_cons] at h4 h3 h5 hlr_ne
        have hnd := List.nodup_cons.mp h4
        have hnd1 := List.nodup_cons.mp hnd.2
        have hpt : p ≠ thcr := fun e => hnd.1 (by simp [e])
        have hqp : q ≠ p := fun e => h3 q (by simp) (by simp [e])
        have hq1 : upd m.node p (some ⟨np, dq⟩) q = some ⟨nq, dq⟩ := by
          rw [upd_other _ _ _ _ hqp, hq]
        obtain ⟨m1, lnew, e1, e2, e3, e4, e5, e6, e7, e8, e9⟩ :=
          ih f { m with node := upd m.node p (some ⟨np, dq⟩) } false p nq dq ln
            ⟨rfl, np, by simp only; rw [upd_same],
              IsChain.frame hln (fun x hx => by
                have h10 : x ≠ p := fun e => hnd1.1 (e ▸ hx)
                simp only
                rw [upd_other _ _ _ _ h10])⟩
            (IsChain.frame hr (fun x hx => by
              have h10 : x ≠ p := fun e => hlr_ne x hx (by simp [e])
              simp only
              rw [upd_other _ _ _ _ h10]))
            hnd.2
            (fun x hx h11 => hlr_ne x hx (List.mem_cons_of_mem _ h11))
            (fun x hx => h5 x (List.mem_cons_of_mem _ hx))
            hlr_lt
            (fun h12 => by cases h12) hf
        simp only at e5 e7 e8 e9
        refine ⟨m1, (p, dq) :: lnew, ?_, ?_, ?_, ?_, ?_, ?_, e7, ?_, e9⟩
        · rw [copyLoop_write f m thcr q p ⟨nq, dq⟩ ⟨some p, d0⟩ ⟨np, dp⟩ ⟨nq, dq⟩ hq ht rfl hp hq1]
          exact e1
        · refine ⟨rfl, some p, ?_, e2⟩
          rw [e8 thcr hnd.1 hthcr, upd_other _ _ _ _ (fun e => hpt e.symm), ht]
        · rw [datas_cons, datas_cons, e3]
        · rw [addrs_cons, List.nodup_cons]
          refine ⟨?_, e4⟩
          rw [List.mem_cons]
          rintro (h9 | h9)
          · exact hpt h9.symm
          · rcases e5 _ h9 with h10 | h10
            · exact hnd.1 (List.mem_cons_of_mem _ h10)
            · omega
        · intro x hx
          rw [addrs_cons, List.mem_cons] at hx
          rw [addrs_cons]
          rcases hx with rfl | hx
          · exact Or.inl (by simp)
          · rcases e5 x hx with h10 | h10
            · exact Or.inl (List.mem_cons_of_mem _ h10)
            · exact Or.inr h10
        · intro x hx
          rw [addrs_cons, List.mem_cons] at hx
          rcases hx with rfl | hx
          · have := h5 x (by simp)
            omega
          · exact e6 x hx
        · intro x hx hxlt
          have hx1 : x ∉ p :: addrs ln := fun e => hx (List.mem_cons_of_mem _ e)
          have hx2 : x ≠ p := fun e => hx1 (by simp [e])
          rw [e8 x hx1 hxlt, upd_other _ _ _ _ hx2]

/-- The copy-assignment of `a` to another object `b`, the two chains sharing no
node and the source holding an element, returns; the source and its nodes are
as they were, and `b` owns a chain with the elements of the source in nodes
that are none of the source's. -/
theorem copyAssign_spec {m : Mem T} {a b : Nat} {la lb : List (Nat × T)}
    (h : TwoChains m a b la lb) (hne : b ≠ a) (hla : la ≠ []) (fuel : Nat)
    (hf : la.length ≤ fuel) :
    ∃ m1 lb1, copyAssign fuel b a m = .ret () m1
      ∧ TwoChains m1 a b la lb1 ∧ datas lb1 = datas la
      ∧ m1.obj a = m.obj a ∧ (m1.obj b)._size = (m.obj a)._size := by
  have hne1 : a ≠ b := fun e => hne e.symm
  cases la with
  | nil => exact absurd rfl hla
  | cons qd lr =>
    obtain ⟨q, dq⟩ := qd
    obtain ⟨hta, nq, hq, hr⟩ := h.ownsA
    simp only [List.length_cons] at hf
    have hqlt : q < m.brk := h.belowA q (by simp [addrs_cons])
    have hlr_lt : ∀ x ∈ addrs lr, x < m.brk :=
      fun x hx => h.belowA x (by simp [addrs_cons, hx])
    cases lb with
    | nil =>
      have htb : (m.obj b)._top = none := h.ownsB
      have hq1 : upd m.node m.brk (some ⟨none, dq⟩) q = some ⟨nq, dq⟩ := by
        rw [upd_other _ _ _ _ (by omega), hq]
      obtain ⟨m2, lnew, e1, e2, e3, e4, e5, e6, e7, e8, e9⟩ :=
        copyLoop_spec lr fuel
          { node := upd m.node m.brk (some ⟨none, dq⟩)
            brk := m.brk + 1
            obj := upd m.obj b { m.obj b with _top := some m.brk } }
          true m.brk nq dq []
          ⟨rfl, none, by simp only; rw [upd_same], rfl⟩
          (IsChain.frame hr (fun x hx => by
            have h9 := hlr_lt x hx
            simp only
            rw [upd_other _ _ _ _ (by omega)]))
          (by simp [addrs])
          (fun x hx => by
            have h9 := hlr_lt x hx
            simp only [addrs, List.map_nil, List.mem_singleton]
            omega)
          (fun x hx => by
            simp only [addrs, List.map_nil, List.mem_singleton] at hx
            simp only
            omega)
          (fun x hx => by
            have h9 := hlr_lt x hx
            simp only
            omega)
          (fun _ => rfl) (by omega)
      simp only at e5 e7 e8 e9
      have hA : ∀ x ∈ addrs ((q, dq) :: lr), m2.node x = m.node x := fun x hx => by
        have h9 := h.belowA x hx
        rw [e8 x (by simp [addrs]; omega) (by omega), upd_other _ _ _ _ (by omega)]
      refine ⟨{ m2 with obj := upd m2.obj b { m2.obj b with _size := (m2.obj a)._size } },
        (m.brk, dq) :: lnew, ?_, ⟨?_, ?_, h.nodupA, e4, ?_, ?_, ?_⟩, ?_, ?_, ?_⟩
      · simp only [copyAssign, if_neg hne, hta, hq, htb, hq1, e1]
      · unfold Owns
        simp only [upd_other _ _ _ _ hne1, e9, hta]
        exact IsChain.frame h.ownsA hA |> fun h10 => by rw [hta] at h10; exact h10
      · unfold Owns
        simp only [upd_same, e9]
        exact e2
      · intro x hx
        have h9 := h.belowA x hx
        rw [addrs_cons, List.mem_cons]
        rintro (h10 | h10)
        · omega
        · rcases e5 x h10 with h11 | h11
          · simp [addrs] at h11
          · omega
      · intro x hx
        have h9 := h.belowA x hx
        simp only
        omega
      · intro x hx
        rw [addrs_cons, List.mem_cons] at hx
        simp only
        rcases hx with rfl | hx
        · omega
        · exact e6 x hx
      · rw [datas_cons, datas_cons, e3]
      · simp only [upd_other _ _ _ _ hne1, e9]
      · simp only [upd_same, upd_other _ _ _ _ hne1, e9]
    | cons pd ln =>
      obtain ⟨p, dp⟩ := pd
      obtain ⟨htb, np, hp, hln⟩ := h.ownsB
      have hndB := h.nodupB
      rw [addrs_cons] at hndB
      have hnd1 := List.nodup_cons.mp hndB
      have hqp : q ≠ p := fun e => h.apart q (by simp [addrs_cons]) (by simp [addrs_cons, e])
      have hq1 : upd m.node p (some ⟨np, dq⟩) q = some ⟨nq, dq⟩ := by
        rw [upd_other _ _ _ _ hqp, hq]
      obtain ⟨m2, lnew, e1, e2, e3, e4, e5, e6, e7, e8, e9⟩ :=
        copyLoop_spec lr fuel { m with node := upd m.node p (some ⟨np, dq⟩) }
          false p nq dq ln
          ⟨rfl, np, by simp only; rw [upd_same],
            IsChain.frame hln (fun x hx => by
              have h10 : x ≠ p := fun e => hnd1.1 (e ▸ hx)
              simp only
              rw [upd_other _ _ _ _ h10])⟩
          (IsChain.frame hr (fun x hx => by
            have h10 : x ≠ p := fun e =>
              h.apart x (by simp [addrs_cons, hx]) (by simp [addrs_cons, e])
            simp only
            rw [upd_other _ _ _ _ h10]))
          hndB
          (fun x hx h11 => h.apart x (by simp [addrs_cons, hx]) (by simpa [addrs_cons] using h11))
          (fun x hx => h.belowB x (by simpa [addrs_cons] using hx))
          hlr_lt
          (fun h12 => by cases h12) (by omega)
      simp only at e5 e7 e8 e9
      have hA : ∀ x ∈ addrs ((q, dq) :: lr), m2.node x = m.node x := fun x hx => by
        have h9 := h.belowA x hx
        have h10 : x ∉ p :: addrs ln := fun e => h.apart x hx (by simpa [addrs_cons] using e)
        have h11 : x ≠ p := fun e => h10 (by simp [e])
        rw [e8 x h10 h9, upd_other _ _ _ _ h11]
      refine ⟨{ m2 with obj := upd m2.obj b { m2.obj b with _size := (m2.obj a)._size } },
        (p, dq) :: lnew, ?_, ⟨?_, ?_, h.nodupA, e4, ?_, ?_, ?_⟩, ?_, ?_, ?_⟩
      · simp only [copyAssign, if_neg hne, hta, hq, htb, hp, hq1, e1]
      · unfold Owns
        simp only [upd_other _ _ _ _ hne1, e9, hta]
        exact IsChain.frame h.ownsA hA |> fun h10 => by rw [hta] at h10; exact h10
      · unfold Owns
        simp only [upd_same, e9, htb]
        exact e2
      · intro x hx
        have h9 := h.belowA x hx
        rw [addrs_cons, List.mem_cons]
        rintro (h10 | h10)
        · exact h.apart x hx (by simp [addrs_cons, h10])
        · rcases e5 x h10 with h11 | h11
          · exact h.apart x hx (by simp [addrs_cons, h11])
          · omega
      · intro x hx
        have h9 := h.belowA x hx
        simp only
        omega
      · intro x hx
        rw [addrs_cons, List.mem_cons] at hx
        simp only
        rcases hx with rfl | hx
        · have := h.belowB x (by simp [addrs_cons])
          omega
        · exact e6 x hx
      · rw [datas_cons, datas_cons, e3]
      · simp only [upd_other _ _ _ _ hne1, e9]
      · simp only [upd_same, upd_other _ _ _ _ hne1, e9]

/-- The copy constructor at `b`, whatever the storage of `b` held. -/
theorem ctorCopy_spec {m : Mem T} {a b : Nat} {la lb : List (Nat × T)}
    (h : TwoChains m a b la lb) (hne : b ≠ a) (hla : la ≠ []) (fuel : Nat)
    (hf : la.length ≤ fuel) :
    ∃ m1 lb1, ctorCopy fuel b a m = .ret () m1
      ∧ TwoChains m1 a b la lb1 ∧ datas lb1 = datas la
      ∧ m1.obj a = m.obj a ∧ (m1.obj b)._size = (m.obj a)._size := by
  have hne1 : a ≠ b := fun e => hne e.symm
  have h0 : TwoChains { m with obj := upd m.obj b ⟨0, none⟩ } a b la [] := by
    refine ⟨?_, by simp [Owns, upd, IsChain], h.nodupA, by simp [addrs], by simp [addrs],
      h.belowA, by simp [addrs]⟩
    unfold Owns
    simp only [upd_other _ _ _ _ hne1]
    exact h.ownsA
  obtain ⟨m1, lb1, e1, e2, e3, e4, e5⟩ := copyAssign_spec h0 hne hla fuel hf
  refine ⟨m1, lb1, e1, e2, e3, ?_, ?_⟩
  · rw [e4]; simp only [upd_other _ _ _ _ hne1]
  · rw [e5]; simp only [upd_other _ _ _ _ hne1]

theorem twoChains_sample :
    TwoChains Mem.sample 0 1 [(4, 9), (3, 8)] [(2, 3), (1, 2), (0, 1)] := by
  refine ⟨⟨rfl, _, rfl, rfl, _, rfl, rfl⟩, ⟨rfl, _, rfl, rfl, _, rfl, rfl, _, rfl, rfl⟩,
    by decide, by decide, by decide, by decide, by decide⟩

end Heap

/-! ## The claims -/

namespace Stack

variable {T : Type}

/-- C1: pushing `v1 .. vn` in that order onto an empty stack and then calling
`pop()` `k` times (`k ≤ n`) succeeds every time, returns `vn, ..` (the first
`k` elements of the reversed sequence) in that order and leaves `size()` at
`n - k`; that is zero exactly when `k = n`.  The number of pushes is in the
range of `std::size_t`. -/
theorem push_pop_reverse (vs : List T) (hn : vs.length < SIZE_MOD) (k : Nat)
    (hk : k ≤ vs.length) :
    popN k (vs.foldl push valueInit)
        = .ret (vs.reverse.take k) ⟨vs.length - k, vs.reverse.drop k⟩
      ∧ (size (⟨vs.length - k, vs.reverse.drop k⟩ : Stack T) = 0 ↔ k = vs.length) := by
  have h0 : vs.foldl push (valueInit : Stack T) = ⟨vs.reverse.length, vs.reverse⟩ := by
    rw [foldl_push vs valueInit (by simpa [valueInit, defaultInit] using hn)]
    simp [valueInit, defaultInit]
  refine ⟨?_, ?_⟩
  · rw [h0, popN_of_length k vs.reverse (by simpa using hn) (by simpa using hk)]
    simp
  · simp only [size]; omega

/-- C1 at `push 1, push 2, push 3` and three pops. -/
theorem push_pop_reverse_witness :
    [1, 2, 3].length < SIZE_MOD ∧ 3 ≤ [1, 2, 3].length
      ∧ popN 3 ([1, 2, 3].foldl push (valueInit : Stack Nat))
          = .ret ([1, 2, 3].reverse.take 3) ⟨[1, 2, 3].length - 3, [1, 2, 3].reverse.drop 3⟩
      ∧ (size (⟨[1, 2, 3].length - 3, [1, 2, 3].reverse.drop 3⟩ : Stack Nat) = 0
          ↔ 3 = [1, 2, 3].length) :=
  ⟨by decide, by decide, push_pop_reverse [1, 2, 3] (by decide) 3 (by decide)⟩

/-- On a stack that satisfies the invariant, `pop()` signals `out_of_range` if
and only if `size()` is 0, and so does `peek()`. -/
theorem Inv.throws_iff_size_zero {s : Stack T} (hi : Inv s) :
    ((pop s).throws .out_of_range = true ↔ size s = 0)
      ∧ ((peek s).throws .out_of_range = true ↔ size s = 0) := by
  rw [pop_throws_iff, peek_throws_iff]
  simp only [size, hi.size_eq_zero_iff, and_self]

/-- C2 fails on a newly constructed stack that was default-initialised
(`Stack<int> s;` over storage holding 7): the store is reachable, `pop()` and
`peek()` signal `out_of_range`, and `size()` is 7, not 0; a `push(5)` followed
by a `pop()` returns and leaves the object in that same reachable state. -/
theorem default_init_throws_with_size_nonzero :
    Store.Reachable Store.garbage
      ∧ (pop (Store.garbage 0)).throws .out_of_range = true
      ∧ (peek (Store.garbage 0)).throws .out_of_range = true
      ∧ size (Store.garbage 0) = 7
      ∧ pop (push (Store.garbage 0) 5) = .ret 5 (defaultInit 7)
      ∧ Store.Reachable
          (Store.set (Store.set Store.garbage 0 (push (Store.garbage 0) 5)) 0 (defaultInit 7)) :=
  have h0 : Store.Reachable Store.garbage := Store.Reachable.defaultInit _ 0 7 Store.Reachable.init
  ⟨h0, by decide, by decide, by decide, by decide,
    Store.Reachable.pop _ 0 5 _ (Store.Reachable.push _ 0 5 h0 (by decide)) (by decide)⟩

/-- C8 fails for a newly constructed stack that was default-initialised
(`Stack<int> s;` over storage holding 7): `_size` is 7 and the chain has no
node, so the invariant does not hold and `size()` is not 0 although `_top` is
null; a `push(5)` keeps the two apart (8 against one node).  The
value-initialised stack satisfies the invariant. -/
theorem default_init_breaks_invariant :
    ¬ Inv (defaultInit 7 : Stack Nat)
      ∧ size (defaultInit 7 : Stack Nat) = 7
      ∧ (defaultInit 7 : Stack Nat)._top.length = 0
      ∧ ¬ (size (defaultInit 7 : Stack Nat) = 0 ↔ (defaultInit 7 : Stack Nat)._top = [])
      ∧ size (push (defaultInit 7 : Stack Nat) 5) = 8
      ∧ (push (defaultInit 7 : Stack Nat) 5)._top.length = 1
      ∧ ¬ Inv (push (defaultInit 7 : Stack Nat) 5)
      ∧ Inv (valueInit : Stack Nat) := by
  decide

/-- C3: on a stack that holds no element, `peek()` and `pop()` both signal
`out_of_range`, and the state handed back with the exception is the state
before the call: `size()` is what it was (0) and the chain is still empty. -/
theorem empty_peek_pop_throw (s : Stack T) (hs : size s = 0) (ht : s._top = []) :
    peek s = .throw .out_of_range s ∧ pop s = .throw .out_of_range s
      ∧ ∀ e s1, (peek s = .throw e s1 ∨ pop s = .throw e s1) →
          size s1 = 0 ∧ s1._top = [] := by
  obtain ⟨n, l⟩ := s
  simp only at ht
  subst ht
  refine ⟨rfl, rfl, ?_⟩
  intro e s1 h1
  have h2 : s1 = ⟨n, []⟩ := by
    rcases h1 with h1 | h1
    · simp only [peek, Res.throw.injEq] at h1
      exact h1.2.symm
    · simp only [pop_nil, Res.throw.injEq] at h1
      exact h1.2.symm
  subst h2
  exact ⟨hs, rfl⟩

/-- C3 at the value-initialised stack. -/
theorem empty_peek_pop_throw_witness :
    size (valueInit : Stack Nat) = 0 ∧ (valueInit : Stack Nat)._top = []
      ∧ peek (valueInit : Stack Nat) = .throw .out_of_range valueInit
      ∧ pop (valueInit : Stack Nat) = .throw .out_of_range valueInit
      ∧ ∀ e s1, (peek (valueInit : Stack Nat) = .throw e s1
            ∨ pop (valueInit : Stack Nat) = .throw e s1) →
          size s1 = 0 ∧ s1._top = [] :=
  ⟨rfl, rfl, empty_peek_pop_throw valueInit rfl rfl⟩

/-- C4: on a stack that holds an element, `pop()` returns a value, `peek()`
returns that same value, and the state after `peek()` is the state before
it. -/
theorem peek_eq_pop (s : Stack T) (ht : s._top ≠ []) :
    ∃ v s1, pop s = .ret v s1 ∧ peek s = .ret v s := by
  obtain ⟨n, l⟩ := s
  cases l with
  | nil => exact absurd rfl ht
  | cons v l => exact ⟨v, _, rfl, rfl⟩

/-- C4 at the stack built by `push 1, push 2, push 3`. -/
theorem peek_eq_pop_witness :
    (ctorList [1, 2, 3] : Stack Nat)._top ≠ []
      ∧ ∃ v s1, pop (ctorList [1, 2, 3] : Stack Nat) = .ret v s1
        ∧ peek (ctorList [1, 2, 3] : Stack Nat) = .ret v (ctorList [1, 2, 3]) :=
  ⟨by decide, peek_eq_pop (ctorList [1, 2, 3]) (by decide)⟩

end Stack

namespace Store

variable {T : Type}

/-- C5: when the source `other` holds an element and `this` is another object
(whatever its chain), copy-assignment returns and leaves `this` with the
`size()` and the element sequence of `other`, and `other` as it was; the copy
constructor returns and builds an object in that same state. -/
theorem copy_equals_source (h : Store T) (this other : Nat) (hne : this ≠ other)
    (hsrc : (h other)._top ≠ []) :
    ∃ h1, copyAssign none this other h = .ret () h1
      ∧ Stack.size (h1 this) = Stack.size (h other)
      ∧ (h1 this)._top = (h other)._top
      ∧ h1 other = h other
      ∧ Stack.ctorCopy none (h other) = .ret () (h other) := by
  refine ⟨h.set this (h other), copyAssign_of_ne h this other hne hsrc, ?_, ?_, ?_, ?_⟩
  · rw [set_same]
  · rw [set_same]
  · rw [set_other _ _ _ _ (fun e => hne e.symm)]
  · exact Stack.copyBody_none _ _ hsrc

/-- C5 with a three-element target and a two-element source. -/
theorem copy_equals_source_witness :
    (0 : Nat) ≠ 1 ∧ ((pair ⟨3, [1, 2, 3]⟩ ⟨2, [8, 9]⟩ : Store Nat) 1)._top ≠ []
      ∧ ∃ h1, copyAssign none 0 1 (pair ⟨3, [1, 2, 3]⟩ ⟨2, [8, 9]⟩ : Store Nat) = .ret () h1
        ∧ Stack.size (h1 0) = Stack.size ((pair ⟨3, [1, 2, 3]⟩ ⟨2, [8, 9]⟩ : Store Nat) 1)
        ∧ (h1 0)._top = ((pair ⟨3, [1, 2, 3]⟩ ⟨2, [8, 9]⟩ : Store Nat) 1)._top
        ∧ h1 1 = (pair ⟨3, [1, 2, 3]⟩ ⟨2, [8, 9]⟩ : Store Nat) 1
        ∧ Stack.ctorCopy none ((pair ⟨3, [1, 2, 3]⟩ ⟨2, [8, 9]⟩ : Store Nat) 1)
            = .ret () ((pair ⟨3, [1, 2, 3]⟩ ⟨2, [8, 9]⟩ : Store Nat) 1) :=
  ⟨by decide, by decide,
    copy_equals_source (pair ⟨3, [1, 2, 3]⟩ ⟨2, [8, 9]⟩) 0 1 (by decide) (by decide)⟩

/-- C6: with a source that holds no element, copy-assignment into a non-empty
target, copy-assignment into an empty target and copy-construction all
dereference the null `other._top` (lines 181 and 182) instead of returning. -/
theorem copy_from_empty_null_deref :
    copyAssign none 0 1 (pair ⟨1, [7]⟩ Stack.valueInit : Store Nat) = .nullDeref
      ∧ copyAssign none 0 1 (pair Stack.valueInit Stack.valueInit : Store Nat) = .nullDeref
      ∧ Stack.ctorCopy none (Stack.valueInit : Stack Nat) = .nullDeref :=
  ⟨rfl, rfl, rfl⟩

/-- C7: move-assignment between two different objects leaves `this` in the
state `other` had (its `_size` and its chain; nothing of the old chain of
`this` remains) and `other` with `_size` 0 and a null `_top`, so that `pop()`
and `peek()` on `other` signal `out_of_range`; the move constructor does the
same whatever `_size` held in the object under construction. -/
theorem move_transfers (h : Store T) (this other : Nat) (hne : this ≠ other) :
    (moveAssign this other h) this = h other
      ∧ (moveAssign this other h) other = ⟨0, []⟩
      ∧ Stack.pop ((moveAssign this other h) other) = .throw .out_of_range ⟨0, []⟩
      ∧ Stack.peek ((moveAssign this other h) other) = .throw .out_of_range ⟨0, []⟩
      ∧ ∀ indet, (ctorMove indet this other h) this = h other
          ∧ (ctorMove indet this other h) other = ⟨0, []⟩ := by
  have hne1 : other ≠ this := fun e => hne e.symm
  have h1 : (moveAssign this other h) this = h other := by
    rw [moveAssign_of_ne h this other hne, set_other _ _ _ _ hne, set_same]
  have h2 : (moveAssign this other h) other = ⟨0, []⟩ := by
    rw [moveAssign_of_ne h this other hne, set_same]
  refine ⟨h1, h2, by rw [h2]; rfl, by rw [h2]; rfl, ?_⟩
  intro indet
  unfold ctorMove
  rw [moveAssign_of_ne _ this other hne]
  exact ⟨by rw [set_other _ _ _ _ hne, set_same, set_other _ _ _ _ hne1], by rw [set_same]⟩

/-- C7 with a one-element target and a two-element source. -/
theorem move_transfers_witness :
    (0 : Nat) ≠ 1
      ∧ (moveAssign 0 1 (pair ⟨1, [4]⟩ ⟨2, [8, 9]⟩ : Store Nat)) 0
          = (pair ⟨1, [4]⟩ ⟨2, [8, 9]⟩ : Store Nat) 1
      ∧ (moveAssign 0 1 (pair ⟨1, [4]⟩ ⟨2, [8, 9]⟩ : Store Nat)) 1 = ⟨0, []⟩
      ∧ Stack.pop ((moveAssign 0 1 (pair ⟨1, [4]⟩ ⟨2, [8, 9]⟩ : Store Nat)) 1)
          = .throw .out_of_range ⟨0, []⟩
      ∧ Stack.peek ((moveAssign 0 1 (pair ⟨1, [4]⟩ ⟨2, [8, 9]⟩ : Store Nat)) 1)
          = .throw .out_of_range ⟨0, []⟩
      ∧ ∀ indet, (ctorMove indet 0 1 (pair ⟨1, [4]⟩ ⟨2, [8, 9]⟩ : Store Nat)) 0
            = (pair ⟨1, [4]⟩ ⟨2, [8, 9]⟩ : Store Nat) 1
          ∧ (ctorMove indet 0 1 (pair ⟨1, [4]⟩ ⟨2, [8, 9]⟩ : Store Nat)) 1 = ⟨0, []⟩ :=
  ⟨by decide, move_transfers (pair ⟨1, [4]⟩ ⟨2, [8, 9]⟩) 0 1 (by decide)⟩

/-- The invariant "`_size` is the length of the chain" holds for a
value-initialised stack and for a stack built by the list, copy and move
constructors, and it is kept by a `push` whose node count stays in the range
of `std::size_t`, by a `pop` that returns, by move-assignment (target,
moved-from source and every other object) and by a copy-assignment that
returns; under it `size()` is 0 exactly when `_top` is null. -/
theorem invariant_kept :
    Stack.Inv (Stack.valueInit : Stack T)
      ∧ (∀ list : List T, list.length < SIZE_MOD → Stack.Inv (Stack.ctorList list))
      ∧ (∀ (s : Stack T) (v : T), Stack.Inv s → s._top.length + 1 < SIZE_MOD →
          Stack.Inv (s.push v))
      ∧ (∀ (s s1 : Stack T) (v : T), Stack.Inv s → s.pop = .ret v s1 → Stack.Inv s1)
      ∧ (∀ (h : Store T) (this other : Nat), (∀ a, Stack.Inv (h a)) →
          ∀ a, Stack.Inv (moveAssign this other h a))
      ∧ (∀ (h h1 : Store T) (this other : Nat), (∀ a, Stack.Inv (h a)) →
          copyAssign none this other h = .ret () h1 → ∀ a, Stack.Inv (h1 a))
      ∧ (∀ other s : Stack T, Stack.Inv other → Stack.ctorCopy none other = .ret () s →
          Stack.Inv s)
      ∧ (∀ (h : Store T) (indet this other : Nat), this ≠ other → Stack.Inv (h other) →
          Stack.Inv (ctorMove indet this other h this)
            ∧ Stack.Inv (ctorMove indet this other h other))
      ∧ (∀ s : Stack T, Stack.Inv s → (Stack.size s = 0 ↔ s._top = [])) := by
  refine ⟨Stack.Inv_valueInit, Stack.Inv_ctorList, Stack.Inv_push,
    fun s s1 v hs hp => Stack.Inv_pop s s1 v hs hp, ?_, ?_, ?_, ?_,
    fun s hs => hs.size_eq_zero_iff⟩
  · intro h this other hi a
    by_cases hne : this = other
    · subst hne; rw [moveAssign_self]; exact hi a
    · rw [moveAssign_of_ne _ _ _ hne]
      by_cases hc : a = other
      · subst hc; rw [set_same]; exact Stack.Inv_valueInit
      · rw [set_other _ _ _ _ hc]
        by_cases hc1 : a = this
        · subst hc1; rw [set_same]; exact hi other
        · rw [set_other _ _ _ _ hc1]; exact hi a
  · intro h h1 this other hi hr a
    rw [copyAssign_ret h h1 this other hr]
    by_cases hc : a = this
    · subst hc; rw [set_same]; exact hi other
    · rw [set_other _ _ _ _ hc]; exact hi a
  · intro other s ho hs
    rw [(Stack.copyBody_ret _ _ _ hs).2]
    exact ho
  · intro h indet this other hne ho
    have hne1 : other ≠ this := fun e => hne e.symm
    unfold ctorMove
    rw [moveAssign_of_ne _ _ _ hne]
    refine ⟨?_, ?_⟩
    · rw [set_other _ _ _ _ hne, set_same, set_other _ _ _ _ hne1]; exact ho
    · rw [set_same]; exact Stack.Inv_valueInit

/-- The preservation of the invariant at the list `[1, 2]`, at `push 5` on
`[4]`, at the `pop` of `[4, 3]`, and at the target and the source of a
move-assignment, a copy-assignment and a move construction between a
one-element and a two-element stack. -/
theorem invariant_kept_witness :
    Stack.Inv (Stack.ctorList [1, 2] : Stack Nat)
      ∧ Stack.Inv (Stack.push (⟨1, [4]⟩ : Stack Nat) 5)
      ∧ Stack.Inv (⟨1, [3]⟩ : Stack Nat)
      ∧ Stack.Inv (moveAssign 0 1 (pair ⟨1, [4]⟩ ⟨2, [8, 9]⟩ : Store Nat) 0)
      ∧ Stack.Inv (moveAssign 0 1 (pair ⟨1, [4]⟩ ⟨2, [8, 9]⟩ : Store Nat) 1)
      ∧ Stack.Inv (Store.set (pair ⟨1, [4]⟩ ⟨2, [8, 9]⟩ : Store Nat) 0 ⟨2, [8, 9]⟩ 0)
      ∧ Stack.Inv (Store.set (pair ⟨1, [4]⟩ ⟨2, [8, 9]⟩ : Store Nat) 0 ⟨2, [8, 9]⟩ 1)
      ∧ Stack.Inv (ctorMove 77 0 1 (pair ⟨1, [4]⟩ ⟨2, [8, 9]⟩ : Store Nat) 0) :=
  have hp : ∀ a, Stack.Inv ((pair ⟨1, [4]⟩ ⟨2, [8, 9]⟩ : Store Nat) a) := fun a => by
    unfold pair set init
    split
    · decide
    · split <;> decide
  ⟨(@invariant_kept Nat).2.1 [1, 2] (by decide),
    (@invariant_kept Nat).2.2.1 ⟨1, [4]⟩ 5 (by decide) (by decide),
    (@invariant_kept Nat).2.2.2.1 ⟨2, [4, 3]⟩ ⟨1, [3]⟩ 4 (by decide) (by decide),
    (@invariant_kept Nat).2.2.2.2.1 _ 0 1 hp 0,
    (@invariant_kept Nat).2.2.2.2.1 _ 0 1 hp 1,
    (@invariant_kept Nat).2.2.2.2.2.1 _ _ 0 1 hp (by rfl) 0,
    (@invariant_kept Nat).2.2.2.2.2.1 _ _ 0 1 hp (by rfl) 1,
    ((@invariant_kept Nat).2.2.2.2.2.2.2.1 _ 77 0 1 (by decide) (hp 1)).1⟩

/-- C9 fails: an empty target that satisfies the invariant, a two-element
source, and a failure of the copy of the second element leave the target with
one node and `_size` 0. -/
theorem copy_failure_size_lies :
    Stack.Inv ((pair Stack.valueInit ⟨2, [1, 2]⟩ : Store Nat) 0)
      ∧ Stack.Inv ((pair Stack.valueInit ⟨2, [1, 2]⟩ : Store Nat) 1)
      ∧ copyAssign (some 1) 0 1 (pair Stack.valueInit ⟨2, [1, 2]⟩ : Store Nat)
          = .throw .copy_failure (Store.set (pair Stack.valueInit ⟨2, [1, 2]⟩) 0 ⟨0, [1]⟩)
      ∧ (Store.set (pair Stack.valueInit ⟨2, [1, 2]⟩ : Store Nat) 0 ⟨0, [1]⟩ 0)._size = 0
      ∧ (Store.set (pair Stack.valueInit ⟨2, [1, 2]⟩ : Store Nat) 0 ⟨0, [1]⟩ 0)._top.length = 1 :=
  ⟨by decide, by decide, rfl, rfl, rfl⟩

/-- C9 as amended: when the copy of the source element at position `k` (from 0
at the top) fails in a copy-assignment between two different objects, the
exception reaches the caller with `_size` of the target unchanged and with
`max k m` nodes in its chain, `m` being the length of the chain before; so for
a target that satisfied the invariant `_size` is still the length of the chain
exactly when `k ≤ m`, that is when no node had been appended yet. -/
theorem copy_failure_state (h : Store T) (this other k : Nat) (hne : this ≠ other)
    (hk : k < (h other)._top.length) :
    ∃ h1, copyAssign (some k) this other h = .throw .copy_failure h1
      ∧ (h1 this)._size = (h this)._size
      ∧ (h1 this)._top.length = max k (h this)._top.length
      ∧ (Stack.Inv (h this) →
          ((h1 this)._size = (h1 this)._top.length ↔ k ≤ (h this)._top.length)) := by
  refine ⟨h.set this ⟨(h this)._size, (h other)._top.take k ++ (h this)._top.drop k⟩,
    ?_, ?_, ?_, ?_⟩
  · simp [copyAssign, hne, Stack.copyBody_fail (h this) (h other) k hk]
  · rw [set_same]
  · rw [set_same]
    simp only [List.length_append, List.length_take, List.length_drop]
    omega
  · intro hi
    rw [set_same]
    simp only [hi.1, List.length_append, List.length_take, List.length_drop]
    omega

/-- C9 as amended, at a failure in position 1 of a three-element source with a
two-element target. -/
theorem copy_failure_state_witness :
    (0 : Nat) ≠ 1 ∧ 1 < ((pair ⟨2, [1, 2]⟩ ⟨3, [7, 8, 9]⟩ : Store Nat) 1)._top.length
      ∧ ∃ h1, copyAssign (some 1) 0 1 (pair ⟨2, [1, 2]⟩ ⟨3, [7, 8, 9]⟩ : Store Nat)
            = .throw .copy_failure h1
        ∧ (h1 0)._size = ((pair ⟨2, [1, 2]⟩ ⟨3, [7, 8, 9]⟩ : Store Nat) 0)._size
        ∧ (h1 0)._top.length
            = max 1 ((pair ⟨2, [1, 2]⟩ ⟨3, [7, 8, 9]⟩ : Store Nat) 0)._top.length
        ∧ (Stack.Inv ((pair ⟨2, [1, 2]⟩ ⟨3, [7, 8, 9]⟩ : Store Nat) 0) →
            ((h1 0)._size = (h1 0)._top.length
              ↔ 1 ≤ ((pair ⟨2, [1, 2]⟩ ⟨3, [7, 8, 9]⟩ : Store Nat) 0)._top.length)) :=
  ⟨by decide, by decide,
    copy_failure_state (pair ⟨2, [1, 2]⟩ ⟨3, [7, 8, 9]⟩) 0 1 1 (by decide) (by decide)⟩

end Store

namespace Stack

variable {T : Type}

/-- C10: a stack constructed from a list (of a length in the range of
`std::size_t`) has the length of the list as `size()` and the list reversed as
its chain, so the last list element is the top; as many `pop()` calls as the
list is long all return, give the list elements in reverse order and leave
the stack empty. -/
theorem ctorList_pops_reversed (list : List T) (hn : list.length < SIZE_MOD) :
    size (ctorList list) = list.length
      ∧ (ctorList list)._top = list.reverse
      ∧ popN list.length (ctorList list) = .ret list.reverse ⟨0, []⟩ := by
  have h0 : ctorList list = ⟨list.reverse.length, list.reverse⟩ := by
    unfold ctorList
    rw [foldl_push list valueInit (by simpa [valueInit, defaultInit] using hn)]
    simp [valueInit, defaultInit]
  refine ⟨by rw [h0]; simp [size], by rw [h0], ?_⟩
  have h1 := popN_of_length list.reverse.length list.reverse (by simpa using hn) (le_refl _)
  rw [List.take_length, List.drop_length, Nat.sub_self] at h1
  rw [h0]
  simpa using h1

/-- C10 at the list `[10, 20, 30]`: the pops give 30, 20, 10. -/
theorem ctorList_pops_reversed_witness :
    [10, 20, 30].length < SIZE_MOD
      ∧ size (ctorList [10, 20, 30]) = [10, 20, 30].length
      ∧ (ctorList [10, 20, 30])._top = [10, 20, 30].reverse
      ∧ popN [10, 20, 30].length (ctorList [10, 20, 30])
          = .ret [10, 20, 30].reverse ⟨0, []⟩ :=
  ⟨by decide, ctorList_pops_reversed [10, 20, 30] (by decide)⟩

/-- C11: for every stack, `isEmpty()` is true exactly when `size()` is 0, and
the conversion to `bool` is the negation of `isEmpty()`: true exactly when
`size()` is not 0. -/
theorem isEmpty_iff_size_zero (s : Stack T) :
    (isEmpty s = true ↔ size s = 0)
      ∧ toBool s = !isEmpty s
      ∧ (toBool s = true ↔ size s ≠ 0) := by
  refine ⟨by simp [isEmpty, size], rfl, by simp [toBool, size]⟩

/-- C12: a default-initialised stack (`Stack<T> s;`) has a null `_top`, so
`pop()` and `peek()` signal `out_of_range`, but `_size` keeps whatever the
storage held: with 7 there, `size()` is 7 and `isEmpty()` is false.  Only the
value-initialised stack has `size()` 0 and `isEmpty()` true. -/
theorem default_init_size_not_zero :
    (defaultInit 7 : Stack Nat)._top = []
      ∧ pop (defaultInit 7 : Stack Nat) = .throw .out_of_range (defaultInit 7)
      ∧ peek (defaultInit 7 : Stack Nat) = .throw .out_of_range (defaultInit 7)
      ∧ size (defaultInit 7 : Stack Nat) = 7
      ∧ isEmpty (defaultInit 7 : Stack Nat) = false
      ∧ size (valueInit : Stack Nat) = 0
      ∧ isEmpty (valueInit : Stack Nat) = true := by
  decide

/-- C16: for a stack whose counter can still go up, `push(v)` puts `v` in front
of the unchanged chain and raises `size()` by one, and the `pop()` that follows
returns `v` and leaves the stack in the state it had before the `push`. -/
theorem push_then_pop (s : Stack T) (v : T) (hs : s._size + 1 < SIZE_MOD) :
    (push s v)._top = v :: s._top
      ∧ size (push s v) = size s + 1
      ∧ pop (push s v) = .ret v s := by
  refine ⟨rfl, push_size_of_lt s v hs, pop_push s v (by omega)⟩

/-- C16 at `push(9)` on the stack holding 3 above 2 above 1. -/
theorem push_then_pop_witness :
    (ctorList [1, 2, 3] : Stack Nat)._size + 1 < SIZE_MOD
      ∧ (push (ctorList [1, 2, 3] : Stack Nat) 9)._top = 9 :: (ctorList [1, 2, 3] : Stack Nat)._top
      ∧ size (push (ctorList [1, 2, 3] : Stack Nat) 9) = size (ctorList [1, 2, 3] : Stack Nat) + 1
      ∧ pop (push (ctorList [1, 2, 3] : Stack Nat) 9) = .ret 9 (ctorList [1, 2, 3]) :=
  ⟨by decide, push_then_pop (ctorList [1, 2, 3]) 9 (by decide)⟩

end Stack

namespace Store

variable {T : Type}

/-- C14: copy-assigning the object at `a` to itself returns at the test of line
177 with the store, and so the size and the chain of that object, as they
were, whatever the object holds (nothing or something) and whether or not a
copy of an element would fail. -/
theorem self_copy_noop (failAt : Option Nat) (h : Store T) (a : Nat) :
    copyAssign failAt a a h = .ret () h := by
  simp [copyAssign]

/-- C15: move-assigning the object at `a` to itself returns at the test of line
165 and leaves the store as it was: the object is not emptied, its size and
its chain are what they were. -/
theorem self_move_noop (h : Store T) (a : Nat) :
    moveAssign a a h = h
      ∧ Stack.size (moveAssign a a h a) = Stack.size (h a)
      ∧ (moveAssign a a h a)._top = (h a)._top := by
  have h0 : moveAssign a a h = h := by simp [moveAssign]
  rw [h0]
  exact ⟨rfl, rfl, rfl⟩

/-- C17: when the target has more nodes than a source that holds `n ≥ 1`
elements and satisfies the invariant, copy-assignment returns without
allocating a node and leaves the target with exactly `n` nodes; `n` calls of
`pop()` then return the `n` elements of the source and leave the target with
`size()` 0 and no node, so the next `pop()` signals `out_of_range`: nothing of
the former tail is left. -/
theorem copy_onto_longer (h : Store T) (this other : Nat) (hne : this ≠ other)
    (hsrc : (h other)._top ≠ []) (hinv : Stack.Inv (h other))
    (hlen : (h other)._top.length < (h this)._top.length) :
    ∃ h1, copyAssign none this other h = .ret () h1
      ∧ (h1 this)._top.length = (h other)._top.length
      ∧ Stack.copyFlags (h this) (h other) = List.replicate (h other)._top.length false
      ∧ Stack.popN (h other)._top.length (h1 this) = .ret (h other)._top ⟨0, []⟩
      ∧ Stack.pop (⟨0, []⟩ : Stack T) = .throw .out_of_range ⟨0, []⟩ := by
  refine ⟨h.set this (h other), copyAssign_of_ne h this other hne hsrc, ?_, ?_, ?_, rfl⟩
  · rw [set_same]
  · rw [Stack.copyFlags_eq, Nat.min_eq_right (Nat.le_of_lt hlen),
      Nat.sub_eq_zero_of_le (Nat.le_of_lt hlen)]
    simp
  · rw [set_same]
    generalize h other = so at hinv ⊢
    obtain ⟨n, l⟩ := so
    obtain ⟨h1, h2⟩ := hinv
    simp only at h1 h2 ⊢
    subst h1
    have h3 := Stack.popN_of_length l.length l h2 (le_refl _)
    rw [List.take_length, List.drop_length, Nat.sub_self] at h3
    exact h3

/-- C17 with a five-element target and a two-element source. -/
theorem copy_onto_longer_witness :
    (0 : Nat) ≠ 1 ∧ ((pair ⟨5, [1, 2, 3, 4, 5]⟩ ⟨2, [8, 9]⟩ : Store Nat) 1)._top ≠ []
      ∧ Stack.Inv ((pair ⟨5, [1, 2, 3, 4, 5]⟩ ⟨2, [8, 9]⟩ : Store Nat) 1)
      ∧ ((pair ⟨5, [1, 2, 3, 4, 5]⟩ ⟨2, [8, 9]⟩ : Store Nat) 1)._top.length
          < ((pair ⟨5, [1, 2, 3, 4, 5]⟩ ⟨2, [8, 9]⟩ : Store Nat) 0)._top.length
      ∧ ∃ h1, copyAssign none 0 1 (pair ⟨5, [1, 2, 3, 4, 5]⟩ ⟨2, [8, 9]⟩ : Store Nat)
            = .ret () h1
        ∧ (h1 0)._top.length
            = ((pair ⟨5, [1, 2, 3, 4, 5]⟩ ⟨2, [8, 9]⟩ : Store Nat) 1)._top.length
        ∧ Stack.copyFlags ((pair ⟨5, [1, 2, 3, 4, 5]⟩ ⟨2, [8, 9]⟩ : Store Nat) 0)
              ((pair ⟨5, [1, 2, 3, 4, 5]⟩ ⟨2, [8, 9]⟩ : Store Nat) 1)
            = List.replicate
                ((pair ⟨5, [1, 2, 3, 4, 5]⟩ ⟨2, [8, 9]⟩ : Store Nat) 1)._top.length false
        ∧ Stack.popN ((pair ⟨5, [1, 2, 3, 4, 5]⟩ ⟨2, [8, 9]⟩ : Store Nat) 1)._top.length (h1 0)
            = .ret ((pair ⟨5, [1, 2, 3, 4, 5]⟩ ⟨2, [8, 9]⟩ : Store Nat) 1)._top ⟨0, []⟩
        ∧ Stack.pop (⟨0, []⟩ : Stack Nat) = .throw .out_of_range ⟨0, []⟩ :=
  ⟨by decide, by decide, by decide, by decide,
    copy_onto_longer (pair ⟨5, [1, 2, 3, 4, 5]⟩ ⟨2, [8, 9]⟩) 0 1 (by decide) (by decide)
      (by decide) (by decide)⟩

/-- C18: when the target has `m` nodes and the source `n > m` elements,
copy-assignment returns; it overwrites at the first `m` positions and
allocates a node at each of the `n - m` positions that follow, and the target
ends with the `n` elements of the source, in the order of the source, and
with its `size()`. -/
theorem copy_onto_shorter (h : Store T) (this other : Nat) (hne : this ≠ other)
    (hlen : (h this)._top.length < (h other)._top.length) :
    ∃ h1, copyAssign none this other h = .ret () h1
      ∧ Stack.copyFlags (h this) (h other)
          = List.replicate (h this)._top.length false
              ++ List.replicate ((h other)._top.length - (h this)._top.length) true
      ∧ (h1 this)._top = (h other)._top
      ∧ (h1 this)._top.length = (h other)._top.length
      ∧ Stack.size (h1 this) = Stack.size (h other) := by
  have hsrc : (h other)._top ≠ [] := by
    intro h0
    rw [h0] at hlen
    simp at hlen
  refine ⟨h.set this (h other), copyAssign_of_ne h this other hne hsrc, ?_, ?_, ?_, ?_⟩
  · rw [Stack.copyFlags_eq, Nat.min_eq_left (Nat.le_of_lt hlen)]
  · rw [set_same]
  · rw [set_same]
  · rw [set_same]

/-- C18 with a five-element source copy-assigned onto a two-element target. -/
theorem copy_onto_shorter_witness :
    (0 : Nat) ≠ 1
      ∧ ((pair ⟨2, [8, 9]⟩ ⟨5, [1, 2, 3, 4, 5]⟩ : Store Nat) 0)._top.length
          < ((pair ⟨2, [8, 9]⟩ ⟨5, [1, 2, 3, 4, 5]⟩ : Store Nat) 1)._top.length
      ∧ ∃ h1, copyAssign none 0 1 (pair ⟨2, [8, 9]⟩ ⟨5, [1, 2, 3, 4, 5]⟩ : Store Nat)
            = .ret () h1
        ∧ Stack.copyFlags ((pair ⟨2, [8, 9]⟩ ⟨5, [1, 2, 3, 4, 5]⟩ : Store Nat) 0)
              ((pair ⟨2, [8, 9]⟩ ⟨5, [1, 2, 3, 4, 5]⟩ : Store Nat) 1)
            = List.replicate
                  ((pair ⟨2, [8, 9]⟩ ⟨5, [1, 2, 3, 4, 5]⟩ : Store Nat) 0)._top.length false
                ++ List.replicate
                  (((pair ⟨2, [8, 9]⟩ ⟨5, [1, 2, 3, 4, 5]⟩ : Store Nat) 1)._top.length
                    - ((pair ⟨2, [8, 9]⟩ ⟨5, [1, 2, 3, 4, 5]⟩ : Store Nat) 0)._top.length) true
        ∧ (h1 0)._top = ((pair ⟨2, [8, 9]⟩ ⟨5, [1, 2, 3, 4, 5]⟩ : Store Nat) 1)._top
        ∧ (h1 0)._top.length
            = ((pair ⟨2, [8, 9]⟩ ⟨5, [1, 2, 3, 4, 5]⟩ : Store Nat) 1)._top.length
        ∧ Stack.size (h1 0)
            = Stack.size ((pair ⟨2, [8, 9]⟩ ⟨5, [1, 2, 3, 4, 5]⟩ : Store Nat) 1) :=
  ⟨by decide, by decide,
    copy_onto_shorter (pair ⟨2, [8, 9]⟩ ⟨5, [1, 2, 3, 4, 5]⟩) 0 1 (by decide) (by decide)⟩

end Store

namespace Stack

variable {T : Type}

/-- C19: in the loop of the copy-assignment, at the start of every pass a flag
`empty` that is `true` comes with a null `thcr->next`, so the pass takes the
branch the test `thcr->next == nullptr` alone would choose; the
copy-assignment with that test alone gives the same outcome and the same
target for every target, every source and every failing position; and once a
position allocates a node, every later position allocates too. -/
theorem flag_is_redundant (failAt : Option Nat) (this other : Stack T) :
    (∀ (d : T) (ds : List T),
        ((Cursor.start this d).after ds).empty = true →
          ((Cursor.start this d).after ds).next = [])
      ∧ (∀ (d e : T) (ds : List T),
          ((Cursor.start this d).after ds).step e
            = ((Cursor.start this d).after ds).stepNoFlag e)
      ∧ copyBodyNoFlag failAt this other = copyBody failAt this other
      ∧ (∀ i j : Nat, i ≤ j → j < (copyFlags this other).length →
          (copyFlags this other)[i]? = some true →
            (copyFlags this other)[j]? = some true) := by
  refine ⟨?_, ?_, copyBodyNoFlag_eq failAt this other, ?_⟩
  · intro d ds
    exact Cursor.after_flag _ (Cursor.start_flag this d) ds
  · intro d e ds
    exact (Cursor.stepNoFlag_eq _ (Cursor.after_flag _ (Cursor.start_flag this d) ds) e).symm
  · intro i j hij hj hi
    rw [copyFlags_eq] at hj hi ⊢
    simp only [List.length_append, List.length_replicate] at hj
    by_cases hlt : i < min this._top.length other._top.length
    · rw [List.getElem?_append_left (by simpa using hlt)] at hi
      rw [List.getElem?_replicate] at hi
      simp [hlt] at hi
    · rw [List.getElem?_append_right (by simp; omega)]
      rw [List.getElem?_replicate]
      simp only [List.length_replicate]
      rw [if_pos (by omega)]

/-- C19 with a two-element target, a five-element source and a failure at
position 3: the outcomes agree, and position 2 allocates, hence position 4
too. -/
theorem flag_is_redundant_witness :
    copyBodyNoFlag (some 3) (⟨2, [8, 9]⟩ : Stack Nat) ⟨5, [1, 2, 3, 4, 5]⟩
        = copyBody (some 3) ⟨2, [8, 9]⟩ ⟨5, [1, 2, 3, 4, 5]⟩
      ∧ (copyFlags (⟨2, [8, 9]⟩ : Stack Nat) ⟨5, [1, 2, 3, 4, 5]⟩)[4]? = some true
      ∧ (((Cursor.start (⟨2, [8, 9]⟩ : Stack Nat) 1).after [2, 3]).empty = true →
          ((Cursor.start (⟨2, [8, 9]⟩ : Stack Nat) 1).after [2, 3]).next = []) :=
  ⟨(flag_is_redundant (some 3) ⟨2, [8, 9]⟩ ⟨5, [1, 2, 3, 4, 5]⟩).2.2.1,
    (flag_is_redundant (some 3) (⟨2, [8, 9]⟩ : Stack Nat) ⟨5, [1, 2, 3, 4, 5]⟩).2.2.2 2 4
      (by decide) (by decide) (by decide),
    (flag_is_redundant (some 3) (⟨2, [8, 9]⟩ : Stack Nat) ⟨5, [1, 2, 3, 4, 5]⟩).1 1 [2, 3]⟩

end Stack

namespace Heap

variable {T : Type}

/-- C13: let the objects `a` and `b` own chains that share no node, the chain
`la` of `a` holding an element, and let `b` be made a copy of `a` by
copy-assignment or by the copy constructor (with fuel for the passes of the
loop).  The copy returns and leaves `b` with the size and the element sequence
of `a` in nodes none of which is a node of `a`.  After that, every sequence of
`push` and `pop` calls on `b` runs to its end and leaves `a` with the same nodes
(same addresses, same data) and the same `_size`, and every such sequence on
`a` leaves `b` with its nodes and its `_size`. -/
theorem copy_shares_no_node (m : Mem T) (a b : Nat) (la lb : List (Nat × T)) (fuel : Nat)
    (hne : b ≠ a) (h : TwoChains m a b la lb) (hla : la ≠ []) (hf : la.length ≤ fuel)
    (ops : List (Stack.Op T)) (r : Out Unit (Mem T))
    (hr : r = copyAssign fuel b a m ∨ r = ctorCopy fuel b a m) :
    ∃ m1 lb1, r = .ret () m1
      ∧ Owns m1 a la ∧ m1.obj a = m.obj a
      ∧ Owns m1 b lb1 ∧ datas lb1 = datas la ∧ (m1.obj b)._size = (m.obj a)._size
      ∧ (∀ x ∈ addrs lb1, x ∉ addrs la)
      ∧ (∃ m2, calls b ops m1 = some m2 ∧ Owns m2 a la ∧ m2.obj a = m.obj a)
      ∧ (∃ m2, calls a ops m1 = some m2 ∧ Owns m2 b lb1 ∧ m2.obj b = m1.obj b) := by
  have hne1 : a ≠ b := fun e => hne e.symm
  have hcopy : ∃ m1 lb1, r = .ret () m1
      ∧ TwoChains m1 a b la lb1 ∧ datas lb1 = datas la
      ∧ m1.obj a = m.obj a ∧ (m1.obj b)._size = (m.obj a)._size := by
    rcases hr with rfl | rfl
    · exact copyAssign_spec h hne hla fuel hf
    · exact ctorCopy_spec h hne hla fuel hf
  obtain ⟨m1, lb1, e1, e2, e3, e4, e5⟩ := hcopy
  obtain ⟨m2, _, c1, c2, c3⟩ := twoChains_calls hne ops m1 lb1 e2
  obtain ⟨m3, _, c4, c5, c6⟩ := twoChains_calls hne1 ops m1 la e2.symm
  exact ⟨m1, lb1, e1, e2.ownsA, e4, e2.ownsB, e3, e5, fun x hx hx1 => e2.apart x hx1 hx,
    ⟨m2, c1, c2.ownsA, by rw [c3, e4]⟩, ⟨m3, c4, c5.ownsA, c6⟩⟩

/-- C13 with the copy-assignment of the two-element object 0 of `Mem.sample` to
its three-element object 1 and the calls `pop, push 4, pop, pop, pop`. -/
theorem copy_shares_no_node_witness :
    (1 : Nat) ≠ 0
      ∧ TwoChains Mem.sample 0 1 [(4, 9), (3, 8)] [(2, 3), (1, 2), (0, 1)]
      ∧ [(4, 9), (3, 8)].length ≤ 5
      ∧ ∃ m1 lb1, copyAssign 5 1 0 Mem.sample = .ret () m1
        ∧ Owns m1 0 [(4, 9), (3, 8)] ∧ m1.obj 0 = Mem.sample.obj 0
        ∧ Owns m1 1 lb1 ∧ datas lb1 = datas [(4, 9), (3, 8)]
        ∧ (m1.obj 1)._size = (Mem.sample.obj 0)._size
        ∧ (∀ x ∈ addrs lb1, x ∉ addrs [(4, 9), (3, 8)])
        ∧ (∃ m2, calls 1 [.pop, .push 4, .pop, .pop, .pop] m1 = some m2
            ∧ Owns m2 0 [(4, 9), (3, 8)] ∧ m2.obj 0 = Mem.sample.obj 0)
        ∧ (∃ m2, calls 0 [.pop, .push 4, .pop, .pop, .pop] m1 = some m2
            ∧ Owns m2 1 lb1 ∧ m2.obj 1 = m1.obj 1) :=
  ⟨by decide, twoChains_sample, by decide,
    copy_shares_no_node Mem.sample 0 1 [(4, 9), (3, 8)] [(2, 3), (1, 2), (0, 1)] 5
      (by decide) twoChains_sample (by decide) (by decide)
      [.pop, .push 4, .pop, .pop, .pop] (copyAssign 5 1 0 Mem.sample) (Or.inl rfl)⟩

end Heap

end StackH
